import Mathlib

/-!
# Verification of the CRM Leads filter-normalization layer

Shallow embedding of the client-side filter/query composition logic of the
Leads list page (`src/frontend/src/pages/Leads.vue`) and its quick filter
bar component (`src/unnamed/part_001`, a `QuickFiltersBar` component).

Modelling conventions:
* JavaScript values relevant to the filter layer are embedded as `JSVal`.
  JS numbers are embedded as exact rationals (`ℚ`); every concrete numeric
  value appearing in the verified claims (integers below 2^53, and 1.5,
  which is a dyadic rational) is represented exactly by an IEEE-754 double,
  so double rounding never distinguishes the embedded runs from the JS runs
  used in the claims.
* `null` and `undefined` are distinct `JSVal` constructors; an absent object
  property is modelled as `Option.none` where the code distinguishes absence.
* String routines (`trim`, the regexes `/\s+/`, `/[٠-٩]/`, `/[,،]/`,
  `/[^\d.]/`, `/^[\s\d٠-٩+\-()]+$/`) are translated character by character;
  the JS whitespace class is reproduced exactly (ECMA-262 WhiteSpace and
  LineTerminator code points).
-/

/-- The subset of JavaScript values flowing through the filter layer. -/
inductive JSVal where
  | null
  | undef
  | str (s : String)
  | num (q : ℚ)
  | bool (b : Bool)
  | arr (elems : List JSVal)
deriving Inhabited

/-- JS truthiness (`Boolean(v)`) for the embedded values.  An array is always
truthy; `0`, `''`, `false`, `null` and `undefined` are falsy.  (NaN never
occurs among the embedded values.) -/
def JSVal.truthy : JSVal → Bool
  | .null => false
  | .undef => false
  | .str s => !(s == "")
  | .num q => decide (q ≠ 0)
  | .bool b => b
  | .arr _ => true

/-- `v === null || v === undefined` (strict nullish test). -/
def JSVal.nullish : JSVal → Bool
  | .null => true
  | .undef => true
  | _ => false

/-- The test `value === null || value === undefined || value === ''` used by
both `sanitizeFilters` and `applyFilters` in `Leads.vue`. -/
def isEmptyVal : JSVal → Bool
  | .null => true
  | .undef => true
  | .str s => s == ""
  | _ => false

/-- Decimal rendering of a rational, used only by `jsToStr` below. -/
def ratStr (q : ℚ) : String :=
  if q.den = 1 then toString q.num else toString q.num ++ "/" ++ toString q.den

mutual
/-- JS `String(v)`.  Faithful for strings, booleans, `null`, `undefined` and
arrays (elements joined by `,` with nullish elements rendered empty).  For
numbers the rendering differs in shape from ECMAScript, but the embedding
only ever compares the result against the lowercase word `"between"`, which
no numeric rendering equals under either semantics. -/
def jsToStr : JSVal → String
  | .null => "null"
  | .undef => "undefined"
  | .str s => s
  | .bool b => if b then "true" else "false"
  | .num q => ratStr q
  | .arr elems => String.intercalate "," (jsArrElems elems)

/-- Element rendering inside `Array.prototype.toString`: `null` and
`undefined` render as the empty string. -/
def jsArrElems : List JSVal → List String
  | [] => []
  | .null :: rest => "" :: jsArrElems rest
  | .undef :: rest => "" :: jsArrElems rest
  | v :: rest => jsToStr v :: jsArrElems rest
end

/-- The ECMAScript WhiteSpace ∪ LineTerminator code points: the character
class matched by `\s` in a JS regex and stripped by `String.prototype.trim`. -/
def isJsWS (c : Char) : Bool :=
  let n := c.toNat
  n == 0x20 || n == 0x09 || n == 0x0a || n == 0x0d ||
  n == 0x0b || n == 0x0c || n == 0xa0 || n == 0x1680 ||
  (decide (0x2000 ≤ n) && decide (n ≤ 0x200a)) ||
  n == 0x2028 || n == 0x2029 || n == 0x202f ||
  n == 0x205f || n == 0x3000 || n == 0xfeff

/-- `String.prototype.trim`. -/
def jsTrim (s : String) : String :=
  String.mk ((((s.toList.dropWhile isJsWS).reverse).dropWhile isJsWS).reverse)

/-- ASCII lowercasing of a string, character by character (the effect of
`String.prototype.toLowerCase` on the ASCII operators and fieldtype names it
is applied to in this code). -/
def jsLowerStr (s : String) : String :=
  String.mk (s.toList.map Char.toLower)

/-- Is `c` an Eastern Arabic-Indic digit `٠`..`٩` (U+0660..U+0669)? -/
def isArabicDigit (c : Char) : Bool :=
  decide (0x660 ≤ c.toNat) && decide (c.toNat ≤ 0x669)

/-- The digit map shared by `normalizeDigits` (QuickFiltersBar) and `toNum`
(`Leads.vue`): Eastern Arabic-Indic digits to ASCII digits, everything else
unchanged. -/
def arabicDigitMap (c : Char) : Char :=
  if c = '٠' then '0'
  else if c = '١' then '1'
  else if c = '٢' then '2'
  else if c = '٣' then '3'
  else if c = '٤' then '4'
  else if c = '٥' then '5'
  else if c = '٦' then '6'
  else if c = '٧' then '7'
  else if c = '٨' then '8'
  else if c = '٩' then '9'
  else c

/-- `normalizeDigits` (QuickFiltersBar, `src/unnamed/part_001` lines
233-236): `String(s).replace(/[٠-٩]/g, d => map[d]).trim()`. -/
def normalizeDigits (s : String) : String :=
  jsTrim (String.mk (s.toList.map arabicDigitMap))

/-- One character of the class `[\s\d٠-٩+\-()]`. -/
def isPhoneChar (c : Char) : Bool :=
  isJsWS c || c.isDigit || isArabicDigit c ||
  c = '+' || c = '-' || c = '(' || c = ')'

/-- `isDigits` (QuickFiltersBar, line 239):
`/^[\s\d٠-٩+\-()]+$/.test(s)` — a non-empty string made only of phone
characters. -/
def isDigits (s : String) : Bool :=
  !(s == "") && s.toList.all isPhoneChar

/-- The `like`-payload list emitted by `runSearchLike` (QuickFiltersBar,
`src/unnamed/part_001` lines 543-636) through `emit('like-change', ...)`:
an empty list for a blank search, three phone payloads for phone-like input,
otherwise a single `first_name` payload.  Each payload is a
`(fieldname, value)` pair. -/
def runSearchLike (searchVal : String) : List (String × String) :=
  let raw := jsTrim searchVal
  if raw = "" then []
  else if isDigits raw then
    let q := normalizeDigits raw
    [("mobile_no", q), ("phone", q), ("other_phone", q)]
  else
    [("first_name", raw)]

/-- Digit-string value: `digitsVal "123" = 123`.  Only applied to lists of
ASCII digits. -/
def digitsVal (cs : List Char) : ℕ :=
  cs.foldl (fun a c => 10 * a + (c.toNat - 48)) 0

/-- JS `Number(s)` restricted to strings made of ASCII digits and dots (the
only strings `toNum` feeds it, after its `[^\d.]` strip): zero dots parse as
an integer, one dot with at least one digit as a decimal fraction, anything
else (two or more dots, or a lone dot) is NaN, rendered here as `none`. -/
def parseDecimal (cs : List Char) : Option ℚ :=
  if cs.count '.' = 0 then some (digitsVal cs)
  else if cs.count '.' = 1 ∧ cs ≠ ['.'] then
    let ip := cs.takeWhile (fun c => c != '.')
    let fp := (cs.dropWhile (fun c => c != '.')).tail
    some ((digitsVal ip : ℚ) + (digitsVal fp : ℚ) / (10 : ℚ) ^ fp.length)
  else none

/-- `toNum` (`Leads.vue` lines 1007-1026).  The input is `Option String`:
`none` embeds `v == null` (the drawer state holds strings, or `null` after
`clearDrawer`).  Pipeline, in source order: nullish/empty guard; trim and
lowercase; Eastern Arabic-Indic digit mapping; removal of whitespace and of
`,`/`،`; `k`/`m`/`b` suffix extraction (×1e3/1e6/1e9); removal of everything
but ASCII digits and dots; empty guard; `Number` parse; multiply.
JS lowercases the full Unicode range while `Char.toLower` lowercases ASCII
only; the difference is invisible here because every non-ASCII letter is
removed by the `[^\d.]` strip before it can influence the result, and the
suffix letters of interest are ASCII. -/
def toNum (v : Option String) : Option ℚ :=
  match v with
  | none => none
  | some v =>
    if v = "" then none
    else
      let s1 := ((jsTrim v).toList.map Char.toLower).map arabicDigitMap
      let s2 := (s1.filter (fun c => !isJsWS c)).filter
        (fun c => !(c == ',') && !(c == '،'))
      let mult : ℚ :=
        if s2.getLast? = some 'k' then 1000
        else if s2.getLast? = some 'm' then 1000000
        else if s2.getLast? = some 'b' then 1000000000
        else 1
      let s3 :=
        if s2.getLast? = some 'k' ∨ s2.getLast? = some 'm' ∨
           s2.getLast? = some 'b' then s2.dropLast else s2
      let s4 := s3.filter (fun c => c.isDigit || c = '.')
      if s4 = [] then none
      else (parseDecimal s4).map (fun n => n * mult)

/-! ## Filter records and wire tuples -/

namespace Leads

/-- A filter record `{fieldname, operator, value}` as built by
`applyQueryFilters`, `applyFiltersFromPanel` and `buildFiltersPayload`.
`operator = none` embeds an absent `operator` property (`applyFilters`
defaults it to `'='`).  Every call site stores a string operator when one is
present. -/
structure Filter where
  fieldname : String
  operator : Option String
  value : JSVal

/-- A serialized wire tuple `[doctype, fieldname, operator, value]` as pushed
to the list view controls. -/
structure WireTuple where
  doctype : String
  fieldname : String
  operator : String
  value : JSVal

/-- `String(f.operator || '=')`: default the operator to `'='` when the
property is absent or the empty string. -/
def opOrDefault : Option String → String
  | none => "="
  | some s => if s = "" then "=" else s

/-- The tuple built for one kept filter in the `applyFilters` loop
(`Leads.vue` lines 818-826): doctype `'CRM Lead'`, lower-cased operator, and
the `delayed` Check-field coercion `value ? 1 : 0`. -/
def mkWireTuple (f : Filter) : WireTuple :=
  let value :=
    if f.fieldname = "delayed" then
      (if f.value.truthy then JSVal.num 1 else JSVal.num 0)
    else f.value
  ⟨"CRM Lead", f.fieldname, jsLowerStr (opOrDefault f.operator), value⟩

/-- The wire-tuple list built by the loop of `applyFilters` (`Leads.vue`
lines 814-827): entries without a fieldname or with an
empty/`null`/`undefined` value are skipped, the rest are serialized by
`mkWireTuple`. -/
def applyFiltersTuples : List Filter → List WireTuple
  | [] => []
  | f :: rest =>
    if f.fieldname = "" ∨ isEmptyVal f.value then applyFiltersTuples rest
    else mkWireTuple f :: applyFiltersTuples rest

/-- The effect of one `applyFilters(filters, replace)` call on the view
controls' active wire-tuple set (`Leads.vue` lines 833-859): an empty tuple
list clears the filters (`vc.clearFilters()`), otherwise `vc.setFilters`
replaces the whole set (the source comment: "setFilters always replaces
filters").  The prior set is discarded in both branches. -/
def applyFiltersEffect (filters : List Filter) (_prior : List WireTuple) :
    List WireTuple :=
  let tuples := applyFiltersTuples filters
  if tuples.isEmpty then [] else tuples

/-! ## `sanitizeFilters` (`Leads.vue` lines 785-806) -/

/-- One raw entry of the list passed to `sanitizeFilters`: a nullish entry,
a positional array, or an object (`fieldname`/`operator` are strings or
absent — `f.fieldname || ''` — and `value` may be absent, which JS reads as
`undefined`). -/
inductive RawFilter where
  | nul
  | arrF (elems : List JSVal)
  | objF (fieldname operator : Option String) (value : Option JSVal)

/-- A sanitized entry `{fieldname, operator, value}`.  For array-shaped
input the three slots are arbitrary JS values, hence `JSVal` fields. -/
structure SanFilter where
  fieldname : JSVal
  operator : JSVal
  value : JSVal

/-- The positional/object extraction at the top of the `sanitizeFilters`
loop body (`Leads.vue` lines 790-793). -/
def rawParts : RawFilter → Option SanFilter
  | .nul => none
  | .arrF l => some ⟨l.getD 1 .undef, l.getD 2 .undef, l.getD 3 .undef⟩
  | .objF fn op v => some ⟨.str (fn.getD ""), .str (op.getD ""), v.getD .undef⟩

/-- The `between` well-formedness check (`Leads.vue` lines 798-801):
`Array.isArray(value) && value.length === 2 && value[0] != null &&
value[1] != null` (loose `!= null` also rejects `undefined`). -/
def betweenPairOk : JSVal → Bool
  | .arr [a, b] => !a.nullish && !b.nullish
  | _ => false

/-- `sanitizeFilters` (`Leads.vue` lines 785-806), translated clause by
clause: skip nullish entries; extract fieldname/operator/value; skip when
fieldname or operator is falsy; skip when the value is
`null`/`undefined`/`''` (unconditionally — there is no carve-out for any
operator); for an operator whose lower-cased string form is `'between'`,
skip unless the value is a 2-element array with both elements non-nullish. -/
def sanitizeFilters : List RawFilter → List SanFilter
  | [] => []
  | f :: rest =>
    match rawParts f with
    | none => sanitizeFilters rest
    | some t =>
      if !t.fieldname.truthy ∨ !t.operator.truthy then sanitizeFilters rest
      else if isEmptyVal t.value then sanitizeFilters rest
      else if jsLowerStr (jsToStr t.operator) = "between" ∧ !betweenPairOk t.value then
        sanitizeFilters rest
      else t :: sanitizeFilters rest

/-! ## `applyQueryFilters` (`Leads.vue` lines 865-927) -/

/-- The route query parameters consumed by `applyQueryFilters`.  Vue-router
delivers each parameter as a string when present; an absent parameter is
`none`. -/
structure RouteQuery where
  status : Option String := none
  type : Option String := none
  priority : Option String := none
  follow_up : Option String := none
  delayed : Option String := none
  project : Option String := none
  user : Option String := none
  create : Option String := none

/-- JS truthiness of an optional string query parameter (`if (query.x)`). -/
def qTruthy (o : Option String) : Bool :=
  !(o.getD "" == "")

/-- The filter list `F` built by `applyQueryFilters` (`Leads.vue` lines
884-912), in source push order: status, lead_type, priority, delayed,
project (under the schema-resolved `PROJECT_FIELD`), lead_owner.  The
`delayed` parameter is consumed whenever it is present and non-empty and is
coerced to `1` for `'1'`/`'true'` and `0` otherwise. -/
def queryFilters (q : RouteQuery) (projectField : String) : List Filter :=
  (if qTruthy q.status then
    [⟨"status", some "=", .str (q.status.getD "")⟩] else []) ++
  (if qTruthy q.type then
    [⟨"lead_type", some "=", .str (q.type.getD "")⟩] else []) ++
  (if qTruthy q.priority then
    [⟨"priority", some "=", .str (q.priority.getD "")⟩] else []) ++
  (match q.delayed with
   | none => []
   | some s =>
     if s = "" then []
     else if s = "1" ∨ s = "true" then [⟨"delayed", some "=", .num 1⟩]
     else [⟨"delayed", some "=", .num 0⟩]) ++
  (if qTruthy q.project then
    [⟨projectField, some "=", .str (q.project.getD "")⟩] else []) ++
  (if qTruthy q.user then
    [⟨"lead_owner", some "=", .str (q.user.getD "")⟩] else [])

/-- What one `applyQueryFilters(query)` run hands to `applyFilters`
(`Leads.vue` lines 921-926): the built filter list, always with
`replace = true` (both the non-empty and the empty branch pass `true`), and
whether the `create` side-channel opens the lead modal. -/
structure QueryApply where
  filters : List Filter
  replace : Bool
  openCreate : Bool

/-- `applyQueryFilters` (`Leads.vue` lines 865-927), restricted to its
observable outputs (the UI-model mutations mirror the same query fields and
carry no extra information). -/
def applyQueryFilters (q : RouteQuery) (projectField : String) : QueryApply :=
  { filters := queryFilters q projectField
    replace := true
    openCreate := qTruthy q.create }

/-! ## QuickFiltersBar: `buildFiltersPayload` (`src/unnamed/part_001` lines 427-475) -/

/-- The quick filter bar state read by `buildFiltersPayload`, through its
computed proxies into the shared `ui` model: `owner` is `ui.owner || 'all'`,
the other fields are `ui.x || ''`. -/
structure QuickState where
  owner : String := "all"
  status : String := ""
  project : String := ""
  lastFrom : String := ""
  lastTo : String := ""

/-- One normalized option of `normalizedProjectList` (label/value strings,
optional color). -/
structure OptionEntry where
  label : String
  value : String
  color : Option String := none

/-- The owner block (`part_001` lines 431-437): `'me'` with a known session
user gives an equality tuple on the owner field; `'unassigned'` gives the
`['_assign', 'is', 'not set']` presence tuple; every other owner value —
including a concrete user picked from the owner dropdown — contributes
nothing. -/
def ownerComp (owner : String) (me : Option String) (ownerField : String) :
    List Filter :=
  if owner = "me" ∧ me.getD "" ≠ "" then
    [⟨ownerField, some "=", .str (me.getD "")⟩]
  else if owner = "unassigned" then
    [⟨"_assign", some "is", .str "not set"⟩]
  else []

/-- An equality block `if (v) F.push({fieldname, operator: '=', value: v})`,
shared by the status block of `buildFiltersPayload` (`part_001` lines
440-442) and the six categorical blocks of `applyFiltersFromPanel`
(`Leads.vue` lines 1051-1056). -/
def eqComp (v fieldn : String) : List Filter :=
  if v ≠ "" then [⟨fieldn, some "=", .str v⟩] else []

/-- A `>=` lower-bound block for a date value (`part_001` line 468,
`Leads.vue` lines 1059-1061). -/
def geComp (v fieldn : String) : List Filter :=
  if v ≠ "" then [⟨fieldn, some ">=", .str v⟩] else []

/-- A `<=` upper-bound block for a date value, widening the value to
`<date> 23:59:59` when `widen` holds (`part_001` lines 469-472 pass
`widen = true` unconditionally; `Leads.vue` lines 1062-1066 pass the
`fieldtype == 'datetime'` test). -/
def leDateComp (v fieldn : String) (widen : Bool) : List Filter :=
  if v ≠ "" then
    [⟨fieldn, some "<=", .str (if widen then v ++ " 23:59:59" else v)⟩]
  else []

/-- A numeric bound block, pushed only when `toNum` succeeded (`Leads.vue`
lines 1069-1074). -/
def boundComp (o : Option ℚ) (op fieldn : String) : List Filter :=
  match o with
  | some q => [⟨fieldn, some op, .num q⟩]
  | none => []

/-- The project block (`part_001` lines 445-463): trim the primitive value,
then push an equality tuple only when it is non-empty, at most 300
characters, and present in `normalizedProjectList`; otherwise the filter is
rejected with a console warning.  (`ui.project` is a string at this call
site, so the `typeof pv === 'object'` unwrapping branch is not taken.) -/
def projectComp (project : String) (plist : List OptionEntry)
    (projectField : String) : List Filter :=
  if project ≠ "" then
    if jsTrim project ≠ "" ∧ (jsTrim project).length ≤ 300 ∧
       (plist.find? (fun p => p.value == jsTrim project)).isSome
    then [⟨projectField, some "=", .str (jsTrim project)⟩]
    else []
  else []

/-- `buildFiltersPayload` (`src/unnamed/part_001` lines 427-475): the filter
list emitted through `emit('filters-change', payload)`, in source push
order — owner, status, project, date range.  `me` is
`window.frappe.session.user`.  The date blocks (lines 466-473) target
`props.lastContactField || 'last_contacted_on'`; the `to` bound is always
widened to `<date> 23:59:59` — there is no field-type check in this
component. -/
def buildFiltersPayload (st : QuickState) (me : Option String)
    (plist : List OptionEntry)
    (ownerField statusField projectField lastContactField : String) :
    List Filter :=
  ownerComp st.owner me ownerField ++
  eqComp st.status statusField ++
  projectComp st.project plist projectField ++
  geComp st.lastFrom
    (if lastContactField = "" then "last_contacted_on" else lastContactField) ++
  leDateComp st.lastTo
    (if lastContactField = "" then "last_contacted_on" else lastContactField) true

/-! ## Drawer translation: `applyFiltersFromPanel` (`Leads.vue` lines 1028-1078) -/

/-- The drawer-relevant slice of the page `ui` record after the
`Object.assign` at the top of `applyFiltersFromPanel` mapped the draft onto
it.  The numeric range fields may hold `null` (set by `clearDrawer`), hence
`Option String`. -/
structure PanelState where
  status : String := ""
  project : String := ""
  location : String := ""
  lead_source : String := ""
  lead_origin : String := ""
  lead_type : String := ""
  last_contacted_from : String := ""
  last_contacted_to : String := ""
  space_min : Option String := none
  space_max : Option String := none
  budget_min : Option String := none
  budget_max : Option String := none

/-- A doctype field's metadata as used by `LAST_CONTACT_FIELD`: fieldname
plus fieldtype (`'Datetime'` or `'Date'` for the fields of interest). -/
structure FieldMeta where
  fieldname : String
  fieldtype : String

/-- The filter list `F` built by `applyFiltersFromPanel` (`Leads.vue` lines
1044-1075) and handed to `applyFilters`, in source push order: equality
tuples for the six categorical fields, then the date range — where the `<=`
bound is widened to `<date> 23:59:59` exactly when
`LAST_CONTACT_FIELD.fieldtype` lower-cases to `'datetime'` — then the
budget and space bounds, each pushed only when `toNum` succeeds. -/
def panelFilters (ui : PanelState)
    (projectField locationField sourceField budgetField spaceField : String)
    (lastContactField : FieldMeta) : List Filter :=
  eqComp ui.status "status" ++
  eqComp ui.project projectField ++
  eqComp ui.location locationField ++
  eqComp ui.lead_source sourceField ++
  eqComp ui.lead_origin "lead_origin" ++
  eqComp ui.lead_type "lead_type" ++
  geComp ui.last_contacted_from lastContactField.fieldname ++
  leDateComp ui.last_contacted_to lastContactField.fieldname
    (jsLowerStr lastContactField.fieldtype == "datetime") ++
  boundComp (toNum ui.budget_min) ">=" budgetField ++
  boundComp (toNum ui.budget_max) "<=" budgetField ++
  boundComp (toNum ui.space_min) ">=" spaceField ++
  boundComp (toNum ui.space_max) "<=" spaceField

/-! ## Catalog merging (`Leads.vue` lines 515-523 and 651-660) -/

/-- A catalog entry `{label, value, color?}`. -/
structure CatalogEntry where
  label : String
  value : String
  color : Option String := none
deriving Repr, DecidableEq

/-- The guarded ordered-map insertion used by both loops of the
`projectList` computed (`Leads.vue` lines 651-660):
`if (p.value && !merged.has(p.value)) merged.set(p.value, p)` — append to
the insertion order only when the value key is truthy and not yet present. -/
def insertIfNew (acc : List CatalogEntry) (p : CatalogEntry) :
    List CatalogEntry :=
  if p.value ≠ "" ∧ acc.all (fun q => q.value != p.value) then acc ++ [p]
  else acc

/-- The `projectList` computed (`Leads.vue` lines 651-660): fold the
authoritative `fullProjectCatalog` into an empty insertion-ordered map, then
the `seenProjects` cache, and read the values back in insertion order. -/
def projectListMerge (fullProjectCatalog seenProjects : List CatalogEntry) :
    List CatalogEntry :=
  seenProjects.foldl insertIfNew (fullProjectCatalog.foldl insertIfNew [])

/-- JS `Map.prototype.set` on an insertion-ordered map keyed by `value`: an
existing key keeps its position and gets the new entry; a new key is
appended. -/
def mapSet (acc : List CatalogEntry) (o : CatalogEntry) : List CatalogEntry :=
  if acc.any (fun q => q.value == o.value) then
    acc.map (fun q => if q.value = o.value then o else q)
  else acc ++ [o]

/-- The unguarded has-check insertion of the second `loadSimpleCatalog`
loop: `if (!merged.has(o.value)) merged.set(o.value, o)`. -/
def insertIfAbsent (acc : List CatalogEntry) (o : CatalogEntry) :
    List CatalogEntry :=
  if acc.any (fun q => q.value == o.value) then acc else acc ++ [o]

/-- `loadSimpleCatalog` (`Leads.vue` lines 515-523): unconditionally `set`
each meta-derived option (schema source), then add each row-observed option
only when its value key is new, and read back in insertion order. -/
def loadSimpleCatalog (fromMeta seenRows : List CatalogEntry) :
    List CatalogEntry :=
  seenRows.foldl insertIfAbsent (fromMeta.foldl mapSet [])

/-! ## Delayed-flag map refresh (`Leads.vue` lines 1152-1184) -/

/-- Helper for `dedupFirst`: walk the list keeping the first occurrence of
each element, `seen` accumulating the elements already emitted. -/
def dedupAux (seen : List String) : List String → List String
  | [] => []
  | x :: rest =>
    if x ∈ seen then dedupAux seen rest
    else x :: dedupAux (seen ++ [x]) rest

/-- `Array.from(new Set(names))`: deduplicate keeping the first occurrence
of each element, in encounter order. -/
def dedupFirst (l : List String) : List String :=
  dedupAux [] l

/-- Helper for `chunked`: the fuel (at least the list length) makes the
recursion structural. -/
def chunkedAux : Nat → List String → Nat → List (List String)
  | 0, _, _ => []
  | _, [], _ => []
  | fuel + 1, l, n =>
    if n = 0 then [] else l.take n :: chunkedAux fuel (l.drop n) n

/-- Slice a list into consecutive chunks of at most `n` elements
(`unique.slice(i, i + MAX_DELAYED_BATCH)` loop, with `n = 200`). -/
def chunked (l : List String) (n : Nat) : List (List String) :=
  chunkedAux l.length l n

/-- `Object.assign(freshMap, res.message)` on string-keyed maps modelled
as insertion-ordered association lists: existing keys are overwritten in
place, new keys appended. -/
def assignPair (m : List (String × Bool)) (kv : String × Bool) :
    List (String × Bool) :=
  if m.any (fun p => p.1 == kv.1) then
    m.map (fun p => if p.1 = kv.1 then kv else p)
  else m ++ [kv]

/-- Merge one response object into the accumulated fresh map. -/
def assignAll (m : List (String × Bool)) (resp : List (String × Bool)) :
    List (String × Bool) :=
  resp.foldl assignPair m

/-- The page state touched by `scheduleDelayedMapRefresh`: the sorted-join
cache key `lastDelayedNamesKey` and the `delayedMap` ref. -/
structure DelayedState where
  lastKey : String
  delayedMap : List (String × Bool)

/-- The observable outcome of one debounced `scheduleDelayedMapRefresh`
body run: the remote chunk calls issued to
`crm.api.reminders.get_delayed_map`, the map left visible while the fetch
is awaited, and the final committed state. -/
structure RefreshOutcome where
  calls : List (List String)
  preFetchMap : List (String × Bool)
  final : DelayedState

/-- The body of `scheduleDelayedMapRefresh` (`Leads.vue` lines 1152-1184).
`names` is `getVisibleLeadNames()`; `oracle` gives the server's
`res.message` for each chunk; `ok` selects the `try` or `catch` outcome.
Empty visible set: reset key and map, no calls.  Otherwise: deduplicate,
join with `'|'` into `newKey`, clear the visible map only when the key
changed, then unconditionally fetch every ≤200-element chunk, committing
the merged fresh map and `newKey` on success, or an empty map (key
untouched) on failure. -/
def delayedRefresh (names : List String) (st : DelayedState)
    (oracle : List String → List (String × Bool)) (ok : Bool) :
    RefreshOutcome :=
  if names = [] then ⟨[], [], ⟨"", []⟩⟩
  else
    let unique := dedupFirst names
    let newKey := String.intercalate "|" unique
    let namesChanged := newKey ≠ st.lastKey
    let preMap := if namesChanged then [] else st.delayedMap
    let chunks := chunked unique 200
    let freshMap := chunks.foldl (fun m c => assignAll m (oracle c)) []
    if ok then ⟨chunks, preMap, ⟨newKey, freshMap⟩⟩
    else ⟨chunks, preMap, ⟨st.lastKey, []⟩⟩

end Leads

/-! ## JSON parsing for the `_assign` cell (`Leads.vue` line 1296) -/

/-- JSON values, for modelling `JSON.parse`. -/
inductive JsonV where
  | jnull
  | jbool (b : Bool)
  | jnum (q : ℚ)
  | jstr (s : String)
  | jarr (elems : List JsonV)
  | jobj (fields : List (String × JsonV))

/-- JSON insignificant whitespace (space, tab, line feed, carriage return). -/
def jsonWS (c : Char) : Bool :=
  c == ' ' || c == '\t' || c == '\n' || c == '\r'

def skipWs (cs : List Char) : List Char :=
  cs.dropWhile jsonWS

/-- Hex digit value. -/
def hexVal (c : Char) : Option Nat :=
  if c.isDigit then some (c.toNat - 48)
  else if 'a' ≤ c ∧ c ≤ 'f' then some (c.toNat - 87)
  else if 'A' ≤ c ∧ c ≤ 'F' then some (c.toNat - 55)
  else none

/-- Parse the body of a JSON string (after the opening quote), returning the
string and the rest of the input. -/
def parseJStr : List Char → Option (String × List Char)
  | [] => none
  | '"' :: rest => some ("", rest)
  | '\\' :: e :: rest =>
    match e with
    | '"' => (parseJStr rest).map (fun (s, r) => ("\"" ++ s, r))
    | '\\' => (parseJStr rest).map (fun (s, r) => ("\\" ++ s, r))
    | '/' => (parseJStr rest).map (fun (s, r) => ("/" ++ s, r))
    | 'b' => (parseJStr rest).map (fun (s, r) => ("\x08" ++ s, r))
    | 'f' => (parseJStr rest).map (fun (s, r) => ("\x0c" ++ s, r))
    | 'n' => (parseJStr rest).map (fun (s, r) => ("\n" ++ s, r))
    | 'r' => (parseJStr rest).map (fun (s, r) => ("\r" ++ s, r))
    | 't' => (parseJStr rest).map (fun (s, r) => ("\t" ++ s, r))
    | 'u' =>
      match rest with
      | h1 :: h2 :: h3 :: h4 :: rest2 =>
        match hexVal h1, hexVal h2, hexVal h3, hexVal h4 with
        | some a, some b, some c, some d =>
          let n := ((a * 16 + b) * 16 + c) * 16 + d
          if h : n < 0xd800 ∨ (0xe000 ≤ n ∧ n < 0x110000) then
            (parseJStr rest2).map (fun (s, r) =>
              (String.mk [Char.ofNatAux n (by rcases h with h | h <;> omega)] ++ s, r))
          else
            -- lone/paired surrogate escapes: substitute U+FFFD (the parsed
            -- text is irrelevant to the claims; only parse success matters,
            -- and JSON.parse accepts any \uXXXX sequence)
            (parseJStr rest2).map (fun (s, r) => ("�" ++ s, r))
        | _, _, _, _ => none
      | _ => none
    | _ => none
  | c :: rest =>
    if c.toNat < 0x20 then none
    else (parseJStr rest).map (fun (s, r) => (String.mk [c] ++ s, r))

/-- Parse a JSON number at the head of the input (grammar:
`-? (0 | [1-9][0-9]*) ('.' [0-9]+)? ([eE] [+-]? [0-9]+)?`). -/
def parseJNum (cs : List Char) : Option (ℚ × List Char) :=
  let (neg, cs1) := match cs with
    | '-' :: r => (true, r)
    | _ => (false, cs)
  let ds := cs1.takeWhile Char.isDigit
  let cs2 := cs1.dropWhile Char.isDigit
  if ds = [] then none
  else if ds.length > 1 ∧ ds.head? = some '0' then none
  else
    let ipart : ℚ := (digitsVal ds : ℚ)
    let (fpartOk, fval, cs3) :=
      match cs2 with
      | '.' :: r =>
        let fs := r.takeWhile Char.isDigit
        if fs = [] then (false, (0 : ℚ), cs2)
        else (true, (digitsVal fs : ℚ) / (10 : ℚ) ^ fs.length, r.dropWhile Char.isDigit)
      | _ => (true, (0 : ℚ), cs2)
    if !fpartOk then none
    else
      match cs3 with
      | e :: r =>
        if e == 'e' || e == 'E' then
          let (eneg, r1) := match r with
            | '+' :: r2 => (false, r2)
            | '-' :: r2 => (true, r2)
            | _ => (false, r)
          let es := r1.takeWhile Char.isDigit
          if es = [] then none
          else
            let ex : ℤ := if eneg then -(digitsVal es : ℤ) else (digitsVal es : ℤ)
            let v := (ipart + fval) * (10 : ℚ) ^ ex
            some (if neg then -v else v, r1.dropWhile Char.isDigit)
        else some (if neg then -(ipart + fval) else ipart + fval, cs3)
      | [] => some (if neg then -(ipart + fval) else ipart + fval, cs3)

mutual
/-- Parse one JSON value at the head of the (whitespace-trimmed) input.
`fuel` bounds the nesting depth; callers provide more fuel than the input
length, so the `0` case is unreachable. -/
def parseJVal : Nat → List Char → Option (JsonV × List Char)
  | 0, _ => none
  | fuel + 1, cs =>
    match skipWs cs with
    | 'n' :: 'u' :: 'l' :: 'l' :: rest => some (.jnull, rest)
    | 't' :: 'r' :: 'u' :: 'e' :: rest => some (.jbool true, rest)
    | 'f' :: 'a' :: 'l' :: 's' :: 'e' :: rest => some (.jbool false, rest)
    | '"' :: rest => (parseJStr rest).map (fun (s, r) => (.jstr s, r))
    | '[' :: rest =>
      (match skipWs rest with
       | ']' :: rest2 => some (.jarr [], rest2)
       | _ => (parseJItems fuel rest []).map (fun (l, r) => (.jarr l.reverse, r)))
    | '{' :: rest =>
      (match skipWs rest with
       | '}' :: rest2 => some (.jobj [], rest2)
       | _ => (parseJFields fuel rest []).map (fun (l, r) => (.jobj l.reverse, r)))
    | c :: rest =>
      if c == '-' || c.isDigit then
        (parseJNum (c :: rest)).map (fun (q, r) => (.jnum q, r))
      else none
    | [] => none

/-- Parse the comma-separated items of a non-empty JSON array, up to and
including the closing bracket. -/
def parseJItems : Nat → List Char → List JsonV → Option (List JsonV × List Char)
  | 0, _, _ => none
  | fuel + 1, cs, acc =>
    match parseJVal fuel cs with
    | none => none
    | some (v, rest) =>
      match skipWs rest with
      | ',' :: rest2 => parseJItems fuel rest2 (v :: acc)
      | ']' :: rest2 => some (v :: acc, rest2)
      | _ => none

/-- Parse the comma-separated members of a non-empty JSON object, up to and
including the closing brace. -/
def parseJFields : Nat → List Char → List (String × JsonV) →
    Option (List (String × JsonV) × List Char)
  | 0, _, _ => none
  | fuel + 1, cs, acc =>
    match skipWs cs with
    | '"' :: rest =>
      match parseJStr rest with
      | none => none
      | some (k, rest2) =>
        match skipWs rest2 with
        | ':' :: rest3 =>
          match parseJVal fuel rest3 with
          | none => none
          | some (v, rest4) =>
            match skipWs rest4 with
            | ',' :: rest5 => parseJFields fuel rest5 ((k, v) :: acc)
            | '}' :: rest5 => some ((k, v) :: acc, rest5)
            | _ => none
        | _ => none
    | _ => none
end

/-- `JSON.parse(s)`: parse one value and require only trailing whitespace,
else a `SyntaxError` (`none`). -/
def jsonParse (s : String) : Option JsonV :=
  match parseJVal (s.length + 1) s.toList with
  | none => none
  | some (v, rest) => if skipWs rest = [] then some v else none

namespace Leads

/-- Shaping of one row's `_assign` cell in `parseRows` (`Leads.vue` lines
1295-1301): `JSON.parse(lead._assign || '[]')` followed by
`assignees.map(...)`.  A missing/empty (falsy) `_assign` string is replaced
by `'[]'` before parsing.  There is no `try`/`catch` here: a `JSON.parse`
`SyntaxError`, or a `.map` call on a parsed non-array, propagates out of
`parseRows` — both are returned as `.error`.  On success the parsed
elements are returned (the avatar object construction per element consults
the external user store and cannot throw). -/
def shapeAssign (assign : Option String) : Except String (List JsonV) :=
  let raw := match assign with
    | none => "[]"
    | some s => if s = "" then "[]" else s
  match jsonParse raw with
  | none => .error "SyntaxError: JSON.parse"
  | some (.jarr l) => .ok l
  | some _ => .error "TypeError: assignees.map is not a function"

end Leads

namespace Leads

/-- `PROJECT_FIELD` (`Leads.vue` lines 759-763): `'real_estate_project'`
when the CRM Lead doctype declares that field, else `'project'` when
declared, else the `'real_estate_project'` fallback. -/
def PROJECT_FIELD (hasRealEstateProject hasProject : Bool) : String :=
  if hasRealEstateProject then "real_estate_project"
  else if hasProject then "project"
  else "real_estate_project"

/-- Analysis predicate: does this filter target fieldname `n`? -/
def isField (n : String) (f : Filter) : Bool :=
  f.fieldname == n

/-- Analysis predicate: is this a `<=` filter? -/
def isLeOp (f : Filter) : Bool :=
  f.operator == some "<="

/-- Analysis predicate: is this a `<=` filter carrying a string value (the
shape of a date upper bound, as opposed to the numeric budget/space
bounds)? -/
def isLeStr (f : Filter) : Bool :=
  (f.operator == some "<=") &&
  (match f.value with
   | .str _ => true
   | _ => false)

/-- The per-entry keep condition of claim C1 as amended, stated from the
claim's words over the extracted `{fieldname, operator, value}` triple: the
fieldname and operator must be non-empty (truthy), the value must not be
`null`/`undefined`/`''` — with no exemption for any operator, including the
presence-check `'is'` — and an operator whose lower-cased string form is
`'between'` additionally requires a 2-element array value with both
elements non-nullish. -/
def claimKeeps (t : SanFilter) : Bool :=
  t.fieldname.truthy && t.operator.truthy && !isEmptyVal t.value &&
  (!(jsLowerStr (jsToStr t.operator) == "between") || betweenPairOk t.value)

/-- Value keys of a catalog, in order. -/
def catKeys (l : List CatalogEntry) : List String :=
  l.map (fun e => e.value)

end Leads

/-- Two characters are equal iff their code points are. -/
theorem char_eq_iff_toNat (a b : Char) : a = b ↔ a.toNat = b.toNat := by
  rw [Char.ext_iff]
  unfold Char.toNat
  constructor
  · intro h; rw [h]
  · intro h
    rcases a with ⟨⟨va⟩, _⟩
    rcases b with ⟨⟨vb⟩, _⟩
    simp only [UInt32.toNat] at h
    have : va = vb := BitVec.toNat_injective h
    subst this
    rfl

/-- `Char.ofNat` round-trips on valid code points. -/
theorem charOfNat_toNat (n : Nat) (h : n.isValidChar) : (Char.ofNat n).toNat = n := by
  unfold Char.ofNat
  rw [dif_pos h]
  unfold Char.ofNatAux Char.toNat UInt32.toNat
  rw [BitVec.toNat_ofNatLt]

/-- `Char.isDigit` via code points. -/
theorem isDigit_eq_toNat (c : Char) :
    c.isDigit = (decide (48 ≤ c.toNat) && decide (c.toNat ≤ 57)) := by
  simp only [Char.isDigit, ge_iff_le]
  congr 1

/-- `Char.toLower` either fixes the character or produces a lowercase ASCII
letter. -/
theorem toLower_toNat_cases (c : Char) :
    (Char.toLower c).toNat = c.toNat ∨
    (97 ≤ (Char.toLower c).toNat ∧ (Char.toLower c).toNat ≤ 122) := by
  have hlow : Char.toLower c =
      (if c.toNat ≥ 65 ∧ c.toNat ≤ 90 then Char.ofNat (c.toNat + 32) else c) := rfl
  by_cases h : c.toNat ≥ 65 ∧ c.toNat ≤ 90
  · right
    have hv : (c.toNat + 32).isValidChar := by
      left
      omega
    rw [hlow, if_pos h, charOfNat_toNat _ hv]
    omega
  · left
    rw [hlow, if_neg h]

/-- The Arabic-Indic digit map fixes every other character. -/
theorem arabicDigitMap_eq_self {c : Char} (h : isArabicDigit c = false) :
    arabicDigitMap c = c := by
  unfold arabicDigitMap
  split_ifs with h0 h1 h2 h3 h4 h5 h6 h7 h8 h9
  all_goals (try rfl)
  all_goals (subst_vars; exact absurd h (by decide))

/-- A character that is neither an ASCII digit nor an Arabic-Indic digit
stays a non-digit through `toLower` and the digit map. -/
theorem not_digit_after_map (c : Char) (h1 : c.isDigit = false)
    (h2 : isArabicDigit c = false) :
    (arabicDigitMap (Char.toLower c)).isDigit = false := by
  rcases toLower_toNat_cases c with h | ⟨ha, hb⟩
  · have hcc : Char.toLower c = c := (char_eq_iff_toNat _ _).mpr h
    rw [hcc, arabicDigitMap_eq_self h2]
    exact h1
  · have harab : isArabicDigit (Char.toLower c) = false := by
      simp only [isArabicDigit, Bool.and_eq_false_iff, decide_eq_false_iff_not]
      omega
    rw [arabicDigitMap_eq_self harab, isDigit_eq_toNat]
    simp only [Bool.and_eq_false_iff, decide_eq_false_iff_not]
    omega

/-- A non-empty all-dots string is NaN for `Number`. -/
theorem parseDecimal_all_dots (cs : List Char) (hne : cs ≠ [])
    (hall : ∀ c ∈ cs, c = '.') : parseDecimal cs = none := by
  have hcount : cs.count '.' = cs.length :=
    List.count_eq_length.mpr (fun b hb => (hall b hb).symm)
  have hpos : 0 < cs.length := List.length_pos.mpr hne
  unfold parseDecimal
  rcases Nat.lt_or_ge cs.length 2 with hl | hl
  · have h1 : cs.length = 1 := by omega
    obtain ⟨a, ha⟩ := List.length_eq_one.mp h1
    subst ha
    have : a = '.' := hall a (by simp)
    subst this
    rw [if_neg (by omega), if_neg (by simp [hcount])]
  · rw [if_neg (by omega), if_neg (by push_neg; intro hc; omega)]

/-- Trimming only removes characters. -/
theorem jsTrim_subset (s : String) {c : Char} (hc : c ∈ (jsTrim s).toList) :
    c ∈ s.toList := by
  unfold jsTrim at hc
  simp only [String.toList] at hc
  rw [List.mem_reverse] at hc
  have hc2 := (List.dropWhile_sublist isJsWS).subset hc
  rw [List.mem_reverse] at hc2
  exact (List.dropWhile_sublist isJsWS).subset hc2

/-- The final stage of `toNum` returns `none` when no digit survives to it. -/
theorem tail_stage_none (l : List Char) (m : ℚ)
    (hl : ∀ c ∈ l, c.isDigit = false) :
    (if l.filter (fun c => c.isDigit || decide (c = '.')) = [] then none
     else (parseDecimal (l.filter (fun c => c.isDigit || decide (c = '.')))).map
       (fun n => n * m)) = (none : Option ℚ) := by
  by_cases he : l.filter (fun c => c.isDigit || decide (c = '.')) = []
  · rw [if_pos he]
  · rw [if_neg he]
    have hall : ∀ c ∈ l.filter (fun c => c.isDigit || decide (c = '.')), c = '.' := by
      intro c hc
      rw [List.mem_filter] at hc
      obtain ⟨hcl, hp⟩ := hc
      have hd : c.isDigit = false := hl c hcl
      simp only [hd, Bool.false_or, decide_eq_true_eq] at hp
      exact hp
    rw [parseDecimal_all_dots _ he hall]
    rfl

/-- `toNum` is `none` on any string containing no Western or Eastern
Arabic-Indic digit (the "unparseable input" clause of claim C4). -/
theorem toNum_none_of_no_digit (s : String)
    (h : ∀ c ∈ s.toList, c.isDigit = false ∧ isArabicDigit c = false) :
    toNum (some s) = none := by
  by_cases hs : s = ""
  · simp [toNum, hs]
  · simp only [toNum]
    rw [if_neg hs]
    have h1 : ∀ c ∈ ((jsTrim s).toList.map Char.toLower).map arabicDigitMap,
        c.isDigit = false := by
      intro c hc
      rw [List.map_map, List.mem_map] at hc
      obtain ⟨c0, hc0, rfl⟩ := hc
      have hc0s := jsTrim_subset s hc0
      exact not_digit_after_map c0 (h c0 hc0s).1 (h c0 hc0s).2
    have h2 : ∀ c ∈ (((jsTrim s).toList.map Char.toLower).map arabicDigitMap).filter
        (fun c => !isJsWS c) |>.filter (fun c => !(c == ',') && !(c == '،')),
        c.isDigit = false := by
      intro c hc
      exact h1 c (List.mem_filter.mp (List.mem_filter.mp hc).1).1
    apply tail_stage_none
    intro c hc
    split at hc
    · exact h2 c (List.dropLast_sublist _ |>.subset hc)
    · exact h2 c hc

theorem toNum_15m : toNum (some "1.5m") = some 1500000 := by
  rw [show toNum (some "1.5m") =
        (parseDecimal ['1', '.', '5']).map (fun n => n * (1000000 : ℚ)) from rfl]
  rw [parseDecimal, if_neg (by decide), if_pos (by decide)]
  norm_num [show digitsVal (List.takeWhile (fun c => c != '.') ['1', '.', '5']) = 1
              from rfl,
            show digitsVal ((List.dropWhile (fun c => c != '.') ['1', '.', '5']).tail) = 5
              from rfl,
            show (List.dropWhile (fun c => c != '.') ['1', '.', '5']).length = 2
              from rfl]

theorem toNum_2000 : toNum (some "2,000") = some 2000 := by
  rw [show toNum (some "2,000") =
        (parseDecimal ['2', '0', '0', '0']).map (fun n => n * (1 : ℚ)) from rfl]
  rw [parseDecimal, if_pos (by decide)]
  norm_num [show digitsVal ['2', '0', '0', '0'] = 2000 from rfl]

theorem toNum_arabic : toNum (some "٠١٢") = some 12 := by
  rw [show toNum (some "٠١٢") =
        (parseDecimal ['0', '1', '2']).map (fun n => n * (1 : ℚ)) from rfl]
  rw [parseDecimal, if_pos (by decide)]
  norm_num [show digitsVal ['0', '1', '2'] = 12 from rfl]

theorem toNum_arabicComma : toNum (some "١،٥٠٠") = some 1500 := by
  rw [show toNum (some "١،٥٠٠") =
        (parseDecimal ['1', '5', '0', '0']).map (fun n => n * (1 : ℚ)) from rfl]
  rw [parseDecimal, if_pos (by decide)]
  norm_num [show digitsVal ['1', '5', '0', '0'] = 1500 from rfl]

theorem toNum_2K : toNum (some "2K") = some 2000 := by
  rw [show toNum (some "2K") =
        (parseDecimal ['2']).map (fun n => n * (1000 : ℚ)) from rfl]
  rw [parseDecimal, if_pos (by decide)]
  norm_num [show digitsVal ['2'] = 2 from rfl]

theorem toNum_3b : toNum (some "3b") = some 3000000000 := by
  rw [show toNum (some "3b") =
        (parseDecimal ['3']).map (fun n => n * (1000000000 : ℚ)) from rfl]
  rw [parseDecimal, if_pos (by decide)]
  norm_num [show digitsVal ['3'] = 3 from rfl]

/-- C4: `toNum` accepts Eastern Arabic-Indic digits, comma or Arabic-comma
thousands separators, and the suffixes `k`/`m`/`b` multiplying by
1e3/1e6/1e9, and returns `null` for unparseable input; in particular
`toNum("1.5m") = 1500000`, `toNum("2,000") = 2000`, and
`toNum("abc") = null`.  The final conjunct proves the "unparseable" clause
in general: any input without a single digit yields `null`. -/
theorem C4_toNum_coercion :
    toNum (some "1.5m") = some 1500000 ∧
    toNum (some "2,000") = some 2000 ∧
    toNum (some "abc") = none ∧
    toNum (some "٠١٢") = some 12 ∧
    toNum (some "١،٥٠٠") = some 1500 ∧
    toNum (some "2K") = some 2000 ∧
    toNum (some "3b") = some 3000000000 ∧
    toNum none = none ∧
    (∀ s : String, (∀ c ∈ s.toList, c.isDigit = false ∧ isArabicDigit c = false) →
      toNum (some s) = none) :=
  ⟨toNum_15m, toNum_2000, rfl, toNum_arabic, toNum_arabicComma, toNum_2K,
   toNum_3b, rfl, toNum_none_of_no_digit⟩

/-- C4 witness: the general no-digit clause of `C4_toNum_coercion`
discharged at the concrete input `"xyz"`. -/
theorem C4_toNum_coercion_witness : toNum (some "xyz") = none :=
  C4_toNum_coercion.2.2.2.2.2.2.2.2 "xyz" (by decide)

/-- Membership in the phone character class is invariant under JS trimming
(the trimmed-away characters are whitespace, which is in the class). -/
theorem all_phone_trim (s : String) :
    (jsTrim s).toList.all isPhoneChar = s.toList.all isPhoneChar := by
  unfold jsTrim
  simp only [String.toList]
  have key : ∀ l : List Char, (l.dropWhile isJsWS).all isPhoneChar = l.all isPhoneChar := by
    intro l
    induction l with
    | nil => rfl
    | cons x xs ih =>
      by_cases hx : isJsWS x = true
      · rw [List.dropWhile_cons_of_pos hx, ih, List.all_cons]
        have : isPhoneChar x = true := by
          unfold isPhoneChar
          rw [hx]
          rfl
        rw [this]
        rfl
      · rw [List.dropWhile_cons_of_neg hx]
  rw [List.all_reverse, key, List.all_reverse, key]

/-- C3 as amended: for every search string that is **non-empty after
trimming** and consists only of digits (Western or Eastern Arabic-Indic),
whitespace, and the characters `+ - ( )`, `runSearchLike` classifies it as
a phone search and emits exactly three like payloads, for fieldnames
`mobile_no`, `phone` and `other_phone`, each carrying the digit-normalized
string; any other input that is non-empty after trimming emits exactly one
like payload against `first_name`.  (The original claim quantified over all
non-empty strings; a whitespace-only string is non-empty, consists only of
the allowed characters, and yet is treated as an empty search — see the
counterexample.) -/
theorem C3_phone_search_amended (s : String) :
    (jsTrim s ≠ "" → s.toList.all isPhoneChar = true →
      runSearchLike s =
        [("mobile_no", normalizeDigits (jsTrim s)),
         ("phone", normalizeDigits (jsTrim s)),
         ("other_phone", normalizeDigits (jsTrim s))]) ∧
    (jsTrim s ≠ "" → s.toList.all isPhoneChar = false →
      runSearchLike s = [("first_name", jsTrim s)]) := by
  constructor
  · intro hne hall
    have hd : isDigits (jsTrim s) = true := by
      unfold isDigits
      rw [all_phone_trim, hall]
      simp [hne]
    unfold runSearchLike
    rw [if_neg hne, if_pos hd]
  · intro hne hall
    have hd : isDigits (jsTrim s) = false := by
      unfold isDigits
      rw [all_phone_trim, hall]
      simp
    unfold runSearchLike
    rw [if_neg hne, if_neg (by simp [hd])]

/-- C3 counterexample: the single-space string is non-empty and consists
only of characters from the claim's phone class, yet `runSearchLike` emits
the empty payload list (a clear) instead of the three phone payloads the
claim requires. -/
theorem C3_whitespace_only_counterexample :
    " " ≠ "" ∧ " ".toList.all isPhoneChar = true ∧ runSearchLike " " = [] := by
  refine ⟨by decide, by decide, by decide⟩

/-- C3 witness: both branches of `C3_phone_search_amended` at concrete
inputs — the spec's own Arabic phone example, and a Latin name. -/
theorem C3_phone_search_witness :
    runSearchLike "٠١٠ ١٢٣ ٤٥٦٧" =
      [("mobile_no", "010 123 4567"), ("phone", "010 123 4567"),
       ("other_phone", "010 123 4567")] ∧
    runSearchLike "Ahmed" = [("first_name", "Ahmed")] := by
  constructor
  · rw [(C3_phone_search_amended "٠١٠ ١٢٣ ٤٥٦٧").1 (by decide) (by decide)]
    decide
  · rw [(C3_phone_search_amended "Ahmed").2 (by decide) (by decide)]
    decide

/-- C2: for the route query `{status: 'New', project: 'P1'}`,
`applyQueryFilters` builds exactly
`[{fieldname: 'status', operator: '=', value: 'New'},
{fieldname: <project field>, operator: '=', value: 'P1'}]` in that order,
passes `replace = true`, and the resulting wire-tuple set replaces any
prior filters (for every prior set and either schema resolution of
`PROJECT_FIELD`). -/
theorem C2_route_query_filters_replace (hasREP hasProj : Bool) (prior : List Leads.WireTuple) :
    Leads.applyQueryFilters
        { status := some "New", project := some "P1" }
        (Leads.PROJECT_FIELD hasREP hasProj) =
      ⟨[⟨"status", some "=", .str "New"⟩,
        ⟨Leads.PROJECT_FIELD hasREP hasProj, some "=", .str "P1"⟩], true, false⟩ ∧
    Leads.applyFiltersEffect
        [⟨"status", some "=", .str "New"⟩,
         ⟨Leads.PROJECT_FIELD hasREP hasProj, some "=", .str "P1"⟩] prior =
      [⟨"CRM Lead", "status", "=", .str "New"⟩,
       ⟨"CRM Lead", Leads.PROJECT_FIELD hasREP hasProj, "=", .str "P1"⟩] := by
  cases hasREP <;> cases hasProj <;> exact ⟨rfl, rfl⟩

/-- C9 as amended: a missing or empty `_assign` string degrades to an empty
list, and a valid JSON array parses to its elements — but invalid JSON (or
a non-array JSON value) raises an error that propagates out of `parseRows`;
the shaping is *not* exception-free.  (The original claim's "never throws"
fails — see the counterexample.) -/
theorem C9_assign_shaping_amended :
    Leads.shapeAssign none = .ok [] ∧
    Leads.shapeAssign (some "") = .ok [] ∧
    Leads.shapeAssign (some "[]") = .ok [] ∧
    Leads.shapeAssign (some "[\"a@x.com\", \"b@x.com\"]") =
      .ok [.jstr "a@x.com", .jstr "b@x.com"] ∧
    (∃ e, Leads.shapeAssign (some "not json") = .error e) :=
  ⟨rfl, rfl, rfl, rfl, ⟨"SyntaxError: JSON.parse", rfl⟩⟩

/-- C9 counterexample: an `_assign` cell holding `"not json"` makes the
`JSON.parse` call in `parseRows` throw — the result is an error, not the
empty list the claim requires. -/
theorem C9_invalid_json_counterexample :
    Leads.shapeAssign (some "not json") = .error "SyntaxError: JSON.parse" := rfl

theorem dedupFirst_ne_nil (names : List String) (h : names ≠ []) :
    Leads.dedupFirst names ≠ [] := by
  cases names with
  | nil => exact absurd rfl h
  | cons x rest =>
    simp only [Leads.dedupFirst, Leads.dedupAux, List.not_mem_nil, if_false]
    exact List.cons_ne_nil _ _

theorem chunked_ne_nil (l : List String) (h : l ≠ []) : Leads.chunked l 200 ≠ [] := by
  cases l with
  | nil => exact absurd rfl h
  | cons x rest =>
    simp only [Leads.chunked, List.length_cons, Leads.chunkedAux]
    exact List.cons_ne_nil _ _

/-- C8 as amended: when the visible set is non-empty and its join key is
unchanged since the last successful fetch, the refresh does **not** skip the
remote lookup — it still issues every ≤200-element batch call; the unchanged
key only keeps the previously cached map visible while the fetch is in
flight (a changed key clears it first). -/
theorem C8_delayed_refresh_amended (names : List String) (st : Leads.DelayedState)
    (oracle : List String → List (String × Bool))
    (hne : names ≠ [])
    (hkey : String.intercalate "|" (Leads.dedupFirst names) = st.lastKey) :
    (Leads.delayedRefresh names st oracle true).preFetchMap = st.delayedMap ∧
    (Leads.delayedRefresh names st oracle true).calls =
      Leads.chunked (Leads.dedupFirst names) 200 ∧
    (Leads.delayedRefresh names st oracle true).calls ≠ [] := by
  refine ⟨?_, ?_, ?_⟩
  · simp [Leads.delayedRefresh, hne, hkey]
  · simp [Leads.delayedRefresh, hne, hkey]
  · simp only [Leads.delayedRefresh, if_neg hne]
    simp [hkey]
    exact fun h => chunked_ne_nil _ (dedupFirst_ne_nil _ hne) h

/-- C8 counterexample: with the visible identifier set `["L1"]` whose join
key equals the stored `lastDelayedNamesKey`, the refresh still issues the
batch call `[["L1"]]` — the claim requires that no remote call be made. -/
theorem C8_unchanged_key_still_calls_counterexample :
    (Leads.delayedRefresh ["L1"] ⟨"L1", [("L1", true)]⟩
        (fun c => c.map (fun n => (n, true))) true).calls = [["L1"]] ∧
    String.intercalate "|" (Leads.dedupFirst ["L1"]) = "L1" := ⟨rfl, rfl⟩

/-- C8 witness: `C8_delayed_refresh_amended` discharged at a concrete
unchanged-key state. -/
theorem C8_delayed_refresh_witness :
    (Leads.delayedRefresh ["L2"] ⟨"L2", [("L2", false)]⟩
        (fun _ => []) true).preFetchMap = [("L2", false)] ∧
    (Leads.delayedRefresh ["L2"] ⟨"L2", [("L2", false)]⟩
        (fun _ => []) true).calls ≠ [] := by
  have h := C8_delayed_refresh_amended ["L2"] ⟨"L2", [("L2", false)]⟩ (fun _ => [])
    (by decide) rfl
  exact ⟨h.1, h.2.2⟩

/-- C1 counterexample: an entry with the presence-check operator `'is'` and
an empty-string value is dropped by `sanitizeFilters`, while the claim says
empty values are kept when the operator is a presence check. -/
theorem C1_presence_check_empty_value_counterexample :
    Leads.sanitizeFilters [.objF (some "_assign") (some "is") (some (.str ""))]
      = [] := rfl

/-- C1 as amended: `sanitizeFilters` returns exactly those entries with a
truthy fieldname and operator whose extracted triple satisfies
`claimKeeps` — the value must be non-`null`/`undefined`/`''`
**unconditionally, with no exemption for the presence-check operator
`'is'`**, and a `between` operator (case-insensitive) additionally requires
a 2-element array value with both elements non-nullish. -/
theorem C1_sanitizeFilters_amended (arr : List Leads.RawFilter) :
    Leads.sanitizeFilters arr =
      (arr.filterMap Leads.rawParts).filter Leads.claimKeeps := by
  induction arr with
  | nil => rfl
  | cons f rest ih =>
    cases hf : Leads.rawParts f with
    | none =>
      have hlhs : Leads.sanitizeFilters (f :: rest) = Leads.sanitizeFilters rest := by
        rw [Leads.sanitizeFilters, hf]
      rw [hlhs, List.filterMap_cons, hf, ih]
    | some t =>
      have hlhs : Leads.sanitizeFilters (f :: rest) =
          (if !t.fieldname.truthy ∨ !t.operator.truthy then Leads.sanitizeFilters rest
           else if isEmptyVal t.value then Leads.sanitizeFilters rest
           else if jsLowerStr (jsToStr t.operator) = "between" ∧
               !Leads.betweenPairOk t.value then Leads.sanitizeFilters rest
           else t :: Leads.sanitizeFilters rest) := by
        rw [Leads.sanitizeFilters, hf]
      rw [hlhs, List.filterMap_cons, hf, List.filter_cons, ih]
      by_cases h1 : t.fieldname.truthy <;>
        by_cases h2 : t.operator.truthy <;>
          by_cases h3 : isEmptyVal t.value = true <;>
            by_cases h4 : jsLowerStr (jsToStr t.operator) = "between" <;>
              by_cases h5 : Leads.betweenPairOk t.value = true <;>
                simp [Leads.claimKeeps, h1, h2, h3, h4, h5]

/-- C10: every wire tuple produced by the `applyFilters` loop has doctype
`'CRM Lead'`, carries the lower-cased operator of its source filter
(defaulting to `'='` when absent), and comes from an entry with a
fieldname and a non-empty value; for the fieldname `'delayed'` the value is
coerced to exactly the number `1` (truthy input) or `0` (falsy input), and
every other fieldname keeps its value untouched. -/
theorem C10_wire_tuple_shape (fs : List Leads.Filter) (t : Leads.WireTuple)
    (ht : t ∈ Leads.applyFiltersTuples fs) :
    t.doctype = "CRM Lead" ∧
    ∃ f ∈ fs, f.fieldname ≠ "" ∧ isEmptyVal f.value = false ∧
      t.fieldname = f.fieldname ∧
      t.operator = jsLowerStr (Leads.opOrDefault f.operator) ∧
      (f.fieldname = "delayed" →
        t.value = if f.value.truthy then JSVal.num 1 else JSVal.num 0) ∧
      (f.fieldname ≠ "delayed" → t.value = f.value) := by
  induction fs with
  | nil => cases ht
  | cons f rest ih =>
    rw [Leads.applyFiltersTuples] at ht
    by_cases hc : f.fieldname = "" ∨ isEmptyVal f.value
    · rw [if_pos hc] at ht
      obtain ⟨hd, g, hg, hrest⟩ := ih ht
      exact ⟨hd, g, List.mem_cons_of_mem f hg, hrest⟩
    · rw [if_neg hc] at ht
      push_neg at hc
      rcases List.mem_cons.mp ht with rfl | ht2
      · refine ⟨rfl, f, List.mem_cons_self f rest, hc.1, ?_, rfl, rfl, ?_, ?_⟩
        · simpa using hc.2
        · intro h
          simp [Leads.mkWireTuple, h]
        · intro h
          simp [Leads.mkWireTuple, h]
      · obtain ⟨hd, g, hg, hrest⟩ := ih ht2
        exact ⟨hd, g, List.mem_cons_of_mem f hg, hrest⟩

/-- C10 witness: `C10_wire_tuple_shape` discharged at the singleton filter
list `[{fieldname: 'delayed', value: '0'}]` (the truthy string `'0'` is
coerced to the number `1`). -/
theorem C10_wire_tuple_shape_witness :
    (⟨"CRM Lead", "delayed", "=", JSVal.num 1⟩ : Leads.WireTuple).doctype
        = "CRM Lead" ∧
    ∃ f ∈ [(⟨"delayed", none, .str "0"⟩ : Leads.Filter)], f.fieldname ≠ "" ∧
      isEmptyVal f.value = false ∧
      (⟨"CRM Lead", "delayed", "=", JSVal.num 1⟩ : Leads.WireTuple).fieldname
          = f.fieldname ∧
      (⟨"CRM Lead", "delayed", "=", JSVal.num 1⟩ : Leads.WireTuple).operator
          = jsLowerStr (Leads.opOrDefault f.operator) ∧
      (f.fieldname = "delayed" →
        (⟨"CRM Lead", "delayed", "=", JSVal.num 1⟩ : Leads.WireTuple).value
          = if f.value.truthy then JSVal.num 1 else JSVal.num 0) ∧
      (f.fieldname ≠ "delayed" →
        (⟨"CRM Lead", "delayed", "=", JSVal.num 1⟩ : Leads.WireTuple).value
          = f.value) := by
  have hmem : (⟨"CRM Lead", "delayed", "=", JSVal.num 1⟩ : Leads.WireTuple) ∈
      Leads.applyFiltersTuples [⟨"delayed", none, .str "0"⟩] := by
    show (⟨"CRM Lead", "delayed", "=", JSVal.num 1⟩ : Leads.WireTuple) ∈
      [(⟨"CRM Lead", "delayed", "=", JSVal.num 1⟩ : Leads.WireTuple)]
    exact List.mem_singleton.mpr rfl
  exact C10_wire_tuple_shape _ _ hmem

theorem eqComp_filter_neg (v f : String) (p : Leads.Filter → Bool)
    (h : p ⟨f, some "=", .str v⟩ = false) :
    (Leads.eqComp v f).filter p = [] := by
  unfold Leads.eqComp
  split <;> simp [h]

theorem eqComp_filter_pos (v f : String) (p : Leads.Filter → Bool)
    (h : p ⟨f, some "=", .str v⟩ = true) :
    (Leads.eqComp v f).filter p = Leads.eqComp v f := by
  unfold Leads.eqComp
  split <;> simp [h]

theorem geComp_filter_neg (v f : String) (p : Leads.Filter → Bool)
    (h : p ⟨f, some ">=", .str v⟩ = false) :
    (Leads.geComp v f).filter p = [] := by
  unfold Leads.geComp
  split <;> simp [h]

theorem geComp_filter_pos (v f : String) (p : Leads.Filter → Bool)
    (h : p ⟨f, some ">=", .str v⟩ = true) :
    (Leads.geComp v f).filter p = Leads.geComp v f := by
  unfold Leads.geComp
  split <;> simp [h]

theorem leDateComp_filter_neg (v f : String) (w : Bool) (p : Leads.Filter → Bool)
    (h : p ⟨f, some "<=", .str (if w then v ++ " 23:59:59" else v)⟩ = false) :
    (Leads.leDateComp v f w).filter p = [] := by
  unfold Leads.leDateComp
  split <;> simp [h]

theorem leDateComp_filter_pos (v f : String) (w : Bool) (p : Leads.Filter → Bool)
    (h : p ⟨f, some "<=", .str (if w then v ++ " 23:59:59" else v)⟩ = true) :
    (Leads.leDateComp v f w).filter p = Leads.leDateComp v f w := by
  unfold Leads.leDateComp
  split <;> simp [h]

theorem boundComp_filter_neg (o : Option ℚ) (op f : String) (p : Leads.Filter → Bool)
    (h : ∀ q, p ⟨f, some op, .num q⟩ = false) :
    (Leads.boundComp o op f).filter p = [] := by
  unfold Leads.boundComp
  cases o <;> simp [h]

theorem ownerComp_filter_neg (o : String) (me : Option String) (f : String)
    (p : Leads.Filter → Bool)
    (h1 : ∀ u, p ⟨f, some "=", .str u⟩ = false)
    (h2 : p ⟨"_assign", some "is", .str "not set"⟩ = false) :
    (Leads.ownerComp o me f).filter p = [] := by
  unfold Leads.ownerComp
  split_ifs <;> simp [h1, h2]

theorem projectComp_filter_neg (pr : String) (pl : List Leads.OptionEntry)
    (f : String) (p : Leads.Filter → Bool)
    (h : ∀ v, p ⟨f, some "=", .str v⟩ = false) :
    (Leads.projectComp pr pl f).filter p = [] := by
  unfold Leads.projectComp
  have hh := h (jsTrim pr)
  split_ifs <;> simp [hh]

theorem projectComp_filter_pos (pr : String) (pl : List Leads.OptionEntry)
    (f : String) (p : Leads.Filter → Bool)
    (h : ∀ v, p ⟨f, some "=", .str v⟩ = true) :
    (Leads.projectComp pr pl f).filter p = Leads.projectComp pr pl f := by
  unfold Leads.projectComp
  have hh := h (jsTrim pr)
  split_ifs <;> simp [hh]

/-- C5 as amended: in the drawer translation the `<=` tuple's value is
widened to `<date> 23:59:59` exactly when the last-contact field is a
datetime field, but in the quick filter bar translation the `<=` value is
always widened, regardless of the field's type (the component never sees
the fieldtype).  Stated via the unique string-valued `<=` tuple of each
translation. -/
theorem C5_date_upper_bound_amended (ui : Leads.PanelState)
    (pf lf sf bf spf : String) (lcf : Leads.FieldMeta)
    (st : Leads.QuickState) (me : Option String)
    (plist : List Leads.OptionEntry) (of stf pjf lcfn : String) :
    ((Leads.panelFilters ui pf lf sf bf spf lcf).filter Leads.isLeStr =
      (if ui.last_contacted_to = "" then []
       else [⟨lcf.fieldname, some "<=",
             .str (if jsLowerStr lcf.fieldtype = "datetime"
                   then ui.last_contacted_to ++ " 23:59:59"
                   else ui.last_contacted_to)⟩])) ∧
    ((Leads.buildFiltersPayload st me plist of stf pjf lcfn).filter Leads.isLeOp =
      (if st.lastTo = "" then []
       else [⟨(if lcfn = "" then "last_contacted_on" else lcfn), some "<=",
             .str (st.lastTo ++ " 23:59:59")⟩])) := by
  constructor
  · unfold Leads.panelFilters
    simp only [List.filter_append]
    rw [eqComp_filter_neg _ _ _ rfl, eqComp_filter_neg _ _ _ rfl,
        eqComp_filter_neg _ _ _ rfl, eqComp_filter_neg _ _ _ rfl,
        eqComp_filter_neg _ _ _ rfl, eqComp_filter_neg _ _ _ rfl,
        geComp_filter_neg _ _ _ rfl,
        leDateComp_filter_pos _ _ _ _ rfl,
        boundComp_filter_neg _ _ _ _ (fun q => rfl),
        boundComp_filter_neg _ _ _ _ (fun q => rfl),
        boundComp_filter_neg _ _ _ _ (fun q => rfl),
        boundComp_filter_neg _ _ _ _ (fun q => rfl)]
    simp only [List.nil_append, List.append_nil]
    unfold Leads.leDateComp
    by_cases h : ui.last_contacted_to = "" <;> simp [h]
  · unfold Leads.buildFiltersPayload
    simp only [List.filter_append]
    rw [ownerComp_filter_neg _ _ _ _ (fun u => rfl) rfl,
        eqComp_filter_neg _ _ _ rfl,
        projectComp_filter_neg _ _ _ _ (fun v => rfl),
        geComp_filter_neg _ _ _ rfl,
        leDateComp_filter_pos _ _ _ _ rfl]
    simp only [List.nil_append, List.append_nil]
    unfold Leads.leDateComp
    by_cases h : st.lastTo = "" <;> simp [h]

/-- C5 counterexample: for the same plain `Date`-typed last-contact field
and the bound `2024-01-10`, the drawer keeps the bare date but the quick
filter bar emits the widened `2024-01-10 23:59:59` — the claim's "a plain
Date field keeps the bare date value" fails for the quick filter bar. -/
theorem C5_quickbar_always_widens_counterexample :
    Leads.buildFiltersPayload ⟨"all", "", "", "", "2024-01-10"⟩ none []
        "lead_owner" "status" "real_estate_project" "last_contacted_on" =
      [⟨"last_contacted_on", some "<=", .str "2024-01-10 23:59:59"⟩] ∧
    Leads.panelFilters ⟨"", "", "", "", "", "", "", "2024-01-10",
        none, none, none, none⟩
        "real_estate_project" "territory" "lead_source" "budget" "space"
        ⟨"last_contacted_on", "Date"⟩ =
      [⟨"last_contacted_on", some "<=", .str "2024-01-10"⟩] ∧
    "2024-01-10 23:59:59" ≠ "2024-01-10" :=
  ⟨rfl, rfl, by decide⟩

/-- C6 counterexample: a non-empty owner value that is neither `'me'` nor
`'unassigned'` — a concrete user picked from the owner dropdown — produces
no tuple at all (the whole payload is empty), while the claim says every
non-empty owner maps to exactly one tuple. -/
theorem C6_explicit_owner_counterexample :
    Leads.buildFiltersPayload ⟨"bob@example.com", "", "", "", ""⟩
      (some "admin@example.com") [] "lead_owner" "status" "real_estate_project"
      "last_contacted_on" = [] := rfl

theorem C6_general (st : Leads.QuickState) (me : Option String)
    (plist : List Leads.OptionEntry) (pf lcf : String)
    (g1 : pf ≠ "lead_owner") (g2 : pf ≠ "status") (g3 : pf ≠ "_assign")
    (g4 : pf ≠ lcf)
    (g5 : lcf ≠ "lead_owner") (g6 : lcf ≠ "status") (g7 : lcf ≠ "_assign")
    (g8 : lcf ≠ "") :
    (st.owner = "me" → me.getD "" ≠ "" →
      (Leads.buildFiltersPayload st me plist "lead_owner" "status" pf lcf).filter
          (Leads.isField "lead_owner") =
        [⟨"lead_owner", some "=", .str (me.getD "")⟩]) ∧
    (st.owner = "unassigned" →
      (Leads.buildFiltersPayload st me plist "lead_owner" "status" pf lcf).filter
          (Leads.isField "_assign") =
        [⟨"_assign", some "is", .str "not set"⟩]) ∧
    (st.owner ≠ "me" → st.owner ≠ "unassigned" →
      (Leads.buildFiltersPayload st me plist "lead_owner" "status" pf lcf).filter
        (fun f => Leads.isField "lead_owner" f || Leads.isField "_assign" f) = []) ∧
    (st.owner = "me" → me.getD "" = "" →
      (Leads.buildFiltersPayload st me plist "lead_owner" "status" pf lcf).filter
        (fun f => Leads.isField "lead_owner" f || Leads.isField "_assign" f) = []) ∧
    ((Leads.buildFiltersPayload st me plist "lead_owner" "status" pf lcf).filter
        (Leads.isField "status") =
      if st.status = "" then [] else [⟨"status", some "=", .str st.status⟩]) ∧
    ((Leads.buildFiltersPayload st me plist "lead_owner" "status" pf lcf).filter
        (Leads.isField pf) =
      if jsTrim st.project ≠ "" ∧ (jsTrim st.project).length ≤ 300 ∧
         (plist.find? (fun p => p.value == jsTrim st.project)).isSome ∧
         st.project ≠ ""
      then [⟨pf, some "=", .str (jsTrim st.project)⟩] else []) ∧
    ((Leads.buildFiltersPayload st me plist "lead_owner" "status" pf lcf).filter
        (fun f => Leads.isField lcf f && (f.operator == some ">=")) =
      if st.lastFrom = "" then [] else [⟨lcf, some ">=", .str st.lastFrom⟩]) ∧
    ((Leads.buildFiltersPayload st me plist "lead_owner" "status" pf lcf).filter
        (fun f => Leads.isField lcf f && (f.operator == some "<=")) =
      if st.lastTo = "" then []
      else [⟨lcf, some "<=", .str (st.lastTo ++ " 23:59:59")⟩]) := by
  have hlcfn : (if lcf = "" then "last_contacted_on" else lcf) = lcf := if_neg g8
  unfold Leads.buildFiltersPayload
  rw [hlcfn]
  refine ⟨?_, ?_, ?_, ?_, ?_, ?_, ?_, ?_⟩
  · intro hme hmeok
    simp only [List.filter_append]
    rw [Leads.ownerComp, if_pos ⟨hme, hmeok⟩,
        eqComp_filter_neg _ _ _ rfl,
        projectComp_filter_neg _ _ _ _
          (fun v => by simp [Leads.isField, g1]),
        geComp_filter_neg _ _ _ (by simp [Leads.isField, g5]),
        leDateComp_filter_neg _ _ _ _ (by simp [Leads.isField, g5])]
    simp [Leads.isField]
  · intro hun
    simp only [List.filter_append]
    rw [Leads.ownerComp, if_neg (by simp [hun]), if_pos hun,
        eqComp_filter_neg _ _ _ rfl,
        projectComp_filter_neg _ _ _ _
          (fun v => by simp [Leads.isField, g3]),
        geComp_filter_neg _ _ _ (by simp [Leads.isField, g7]),
        leDateComp_filter_neg _ _ _ _ (by simp [Leads.isField, g7])]
    simp [Leads.isField]
  · intro hm hu
    simp only [List.filter_append]
    rw [Leads.ownerComp, if_neg (by simp [hm]), if_neg hu,
        eqComp_filter_neg _ _ _ rfl,
        projectComp_filter_neg _ _ _ _
          (fun v => by simp [Leads.isField, g1, g3]),
        geComp_filter_neg _ _ _ (by simp [Leads.isField, g5, g7]),
        leDateComp_filter_neg _ _ _ _ (by simp [Leads.isField, g5, g7])]
    rfl
  · intro hm hme
    simp only [List.filter_append]
    rw [Leads.ownerComp, if_neg (by simp [hme]), if_neg (by simp [hm]),
        eqComp_filter_neg _ _ _ rfl,
        projectComp_filter_neg _ _ _ _
          (fun v => by simp [Leads.isField, g1, g3]),
        geComp_filter_neg _ _ _ (by simp [Leads.isField, g5, g7]),
        leDateComp_filter_neg _ _ _ _ (by simp [Leads.isField, g5, g7])]
    rfl
  · simp only [List.filter_append]
    rw [ownerComp_filter_neg _ _ _ _ (fun u => rfl) rfl,
        eqComp_filter_pos _ _ _ rfl,
        projectComp_filter_neg _ _ _ _
          (fun v => by simp [Leads.isField, g2]),
        geComp_filter_neg _ _ _ (by simp [Leads.isField, g6]),
        leDateComp_filter_neg _ _ _ _ (by simp [Leads.isField, g6])]
    simp only [List.nil_append, List.append_nil]
    unfold Leads.eqComp
    by_cases h : st.status = "" <;> simp [h]
  · simp only [List.filter_append]
    rw [ownerComp_filter_neg _ _ _ _
          (fun u => by simp [Leads.isField, Ne.symm g1])
          (by simp [Leads.isField, Ne.symm g3]),
        eqComp_filter_neg _ _ _ (by simp [Leads.isField, Ne.symm g2]),
        projectComp_filter_pos _ _ _ _ (fun v => by simp [Leads.isField]),
        geComp_filter_neg _ _ _ (by simp [Leads.isField, Ne.symm g4]),
        leDateComp_filter_neg _ _ _ _ (by simp [Leads.isField, Ne.symm g4])]
    simp only [List.nil_append, List.append_nil]
    unfold Leads.projectComp
    by_cases h1 : st.project = ""
    · simp [h1]
    · rw [if_pos h1]
      by_cases h2 : jsTrim st.project ≠ "" ∧ (jsTrim st.project).length ≤ 300 ∧
          (plist.find? (fun p => p.value == jsTrim st.project)).isSome
      · rw [if_pos h2, if_pos ⟨h2.1, h2.2.1, h2.2.2, h1⟩]
      · rw [if_neg h2, if_neg (by tauto)]
  · simp only [List.filter_append]
    rw [ownerComp_filter_neg _ _ _ _
          (fun u => by simp [Leads.isField, g5])
          (by simp [Leads.isField, g7]),
        eqComp_filter_neg _ _ _ (by simp [Leads.isField, g6]),
        projectComp_filter_neg _ _ _ _ (fun v => by simp [Leads.isField, g4]),
        geComp_filter_pos _ _ _ (by simp [Leads.isField]),
        leDateComp_filter_neg _ _ _ _ (by simp)]
    simp only [List.nil_append, List.append_nil]
    unfold Leads.geComp
    by_cases h : st.lastFrom = "" <;> simp [h]
  · simp only [List.filter_append]
    rw [ownerComp_filter_neg _ _ _ _
          (fun u => by simp [Leads.isField, g5])
          (by simp [Leads.isField, g7]),
        eqComp_filter_neg _ _ _ (by simp [Leads.isField, g6]),
        projectComp_filter_neg _ _ _ _ (fun v => by simp [Leads.isField, g4]),
        geComp_filter_neg _ _ _ (by simp),
        leDateComp_filter_pos _ _ _ _ (by simp [Leads.isField])]
    simp only [List.nil_append, List.append_nil]
    unfold Leads.leDateComp
    by_cases h : st.lastTo = "" <;> simp [h]

/-- C6 as amended, for the field names the Leads page passes
(`lead_owner`, `status`, a schema-resolved project field, a last-contact
candidate field): status maps to exactly one `=` tuple when non-empty;
`owner = 'me'` with a known session user maps to exactly one `=` tuple on
`lead_owner`; `owner = 'unassigned'` maps to exactly one
`{_assign, is, 'not set'}` tuple; **any other owner value maps to no
tuple, as does `'me'` without a session user**; a non-empty project maps to
exactly one `=` tuple only when its trimmed value is ≤ 300 characters and
present in the normalized project list, else to none; each non-empty date
bound maps to exactly one `>=`/`<=` tuple (the `<=` value widened). -/
theorem C6_quickbar_tuples_amended (st : Leads.QuickState) (me : Option String)
    (plist : List Leads.OptionEntry) (pf lcf : String)
    (hpf : pf = "real_estate_project" ∨ pf = "project")
    (hlcf : lcf ∈ (["last_contacted_on", "last_contacted", "last_contact_date",
        "last_contact"] : List String)) :
    (st.owner = "me" → me.getD "" ≠ "" →
      (Leads.buildFiltersPayload st me plist "lead_owner" "status" pf lcf).filter
          (Leads.isField "lead_owner") =
        [⟨"lead_owner", some "=", .str (me.getD "")⟩]) ∧
    (st.owner = "unassigned" →
      (Leads.buildFiltersPayload st me plist "lead_owner" "status" pf lcf).filter
          (Leads.isField "_assign") =
        [⟨"_assign", some "is", .str "not set"⟩]) ∧
    (st.owner ≠ "me" → st.owner ≠ "unassigned" →
      (Leads.buildFiltersPayload st me plist "lead_owner" "status" pf lcf).filter
        (fun f => Leads.isField "lead_owner" f || Leads.isField "_assign" f) = []) ∧
    (st.owner = "me" → me.getD "" = "" →
      (Leads.buildFiltersPayload st me plist "lead_owner" "status" pf lcf).filter
        (fun f => Leads.isField "lead_owner" f || Leads.isField "_assign" f) = []) ∧
    ((Leads.buildFiltersPayload st me plist "lead_owner" "status" pf lcf).filter
        (Leads.isField "status") =
      if st.status = "" then [] else [⟨"status", some "=", .str st.status⟩]) ∧
    ((Leads.buildFiltersPayload st me plist "lead_owner" "status" pf lcf).filter
        (Leads.isField pf) =
      if jsTrim st.project ≠ "" ∧ (jsTrim st.project).length ≤ 300 ∧
         (plist.find? (fun p => p.value == jsTrim st.project)).isSome ∧
         st.project ≠ ""
      then [⟨pf, some "=", .str (jsTrim st.project)⟩] else []) ∧
    ((Leads.buildFiltersPayload st me plist "lead_owner" "status" pf lcf).filter
        (fun f => Leads.isField lcf f && (f.operator == some ">=")) =
      if st.lastFrom = "" then [] else [⟨lcf, some ">=", .str st.lastFrom⟩]) ∧
    ((Leads.buildFiltersPayload st me plist "lead_owner" "status" pf lcf).filter
        (fun f => Leads.isField lcf f && (f.operator == some "<=")) =
      if st.lastTo = "" then []
      else [⟨lcf, some "<=", .str (st.lastTo ++ " 23:59:59")⟩]) := by
  refine C6_general st me plist pf lcf ?_ ?_ ?_ ?_ ?_ ?_ ?_ ?_ <;>
    simp only [List.mem_cons, List.not_mem_nil, or_false] at hlcf <;>
    rcases hpf with rfl | rfl <;>
    rcases hlcf with rfl | rfl | rfl | rfl <;> decide

/-- C6 witness: `C6_quickbar_tuples_amended` discharged at a concrete state
with `owner = 'me'`, a session user, and a status. -/
theorem C6_quickbar_tuples_witness :
    (Leads.buildFiltersPayload ⟨"me", "New", "", "", ""⟩ (some "user@example.com")
        [] "lead_owner" "status" "real_estate_project" "last_contacted_on").filter
      (Leads.isField "lead_owner") =
      [⟨"lead_owner", some "=", .str "user@example.com"⟩] ∧
    (Leads.buildFiltersPayload ⟨"me", "New", "", "", ""⟩ (some "user@example.com")
        [] "lead_owner" "status" "real_estate_project" "last_contacted_on").filter
      (Leads.isField "status") = [⟨"status", some "=", .str "New"⟩] := by
  have h := C6_quickbar_tuples_amended ⟨"me", "New", "", "", ""⟩ (some "user@example.com") []
    "real_estate_project" "last_contacted_on" (Or.inl rfl) (by simp)
  refine ⟨h.1 rfl (by decide), ?_⟩
  rw [h.2.2.2.2.1]
  rfl

theorem insertIfNew_pos (acc : List Leads.CatalogEntry) (p : Leads.CatalogEntry)
    (hc : p.value ≠ "" ∧ acc.all (fun q => q.value != p.value)) :
    Leads.insertIfNew acc p = acc ++ [p] := by
  unfold Leads.insertIfNew
  rw [if_pos hc]

theorem insertIfNew_neg (acc : List Leads.CatalogEntry) (p : Leads.CatalogEntry)
    (hc : ¬(p.value ≠ "" ∧ acc.all (fun q => q.value != p.value))) :
    Leads.insertIfNew acc p = acc := by
  unfold Leads.insertIfNew
  rw [if_neg hc]

theorem foldl_insertIfNew_exists (l acc : List Leads.CatalogEntry) :
    ∃ t, l.foldl Leads.insertIfNew acc = acc ++ t ∧
      ∀ e ∈ t, e ∈ l ∧ e.value ≠ "" ∧
        e.value ∉ acc.map (fun x => x.value) := by
  induction l generalizing acc with
  | nil => exact ⟨[], by simp, by simp⟩
  | cons p l ih =>
    rw [List.foldl_cons]
    by_cases hc : p.value ≠ "" ∧ acc.all (fun q => q.value != p.value)
    · obtain ⟨t, ht, hprop⟩ := ih (acc ++ [p])
      refine ⟨p :: t, ?_, ?_⟩
      · rw [insertIfNew_pos acc p hc, ht]
        simp
      · intro e he
        rcases List.mem_cons.mp he with rfl | he2
        · refine ⟨List.mem_cons_self _ _, hc.1, fun hmem => ?_⟩
          rw [List.mem_map] at hmem
          obtain ⟨x, hx, hv⟩ := hmem
          have hb := List.all_eq_true.mp hc.2 x hx
          rw [bne_iff_ne] at hb
          exact hb hv
        · obtain ⟨h1, h2, h3⟩ := hprop e he2
          refine ⟨List.mem_cons_of_mem _ h1, h2, fun hmem => h3 ?_⟩
          rw [List.map_append]
          exact List.mem_append_left _ hmem
    · obtain ⟨t, ht, hprop⟩ := ih acc
      refine ⟨t, ?_, fun e he => ?_⟩
      · rw [insertIfNew_neg acc p hc]
        exact ht
      · obtain ⟨h1, h2, h3⟩ := hprop e he
        exact ⟨List.mem_cons_of_mem _ h1, h2, h3⟩

theorem keys_mono_foldl_insertIfNew (l acc : List Leads.CatalogEntry) :
    ∀ v ∈ acc.map (fun x => x.value),
      v ∈ (l.foldl Leads.insertIfNew acc).map (fun x => x.value) := by
  obtain ⟨t, ht, _⟩ := foldl_insertIfNew_exists l acc
  rw [ht, List.map_append]
  intro v hv
  exact List.mem_append_left _ hv

theorem foldl_insertIfNew_nodup (l : List Leads.CatalogEntry)
    (acc : List Leads.CatalogEntry) (h : (acc.map (fun x => x.value)).Nodup) :
    ((l.foldl Leads.insertIfNew acc).map (fun x => x.value)).Nodup := by
  induction l generalizing acc with
  | nil => exact h
  | cons p l ih =>
    rw [List.foldl_cons]
    by_cases hc : p.value ≠ "" ∧ acc.all (fun q => q.value != p.value)
    · rw [insertIfNew_pos acc p hc]
      apply ih
      rw [List.map_append]
      refine List.Nodup.append h (List.nodup_singleton _) ?_
      intro a ha hb
      rw [List.mem_map] at ha
      obtain ⟨x, hx, rfl⟩ := ha
      simp only [List.mem_map, List.mem_singleton] at hb
      have hball := List.all_eq_true.mp hc.2 x hx
      rw [bne_iff_ne] at hball
      simp at hb
      exact hball hb.symm
    · rw [insertIfNew_neg acc p hc]
      exact ih acc h

theorem key_in_foldl_insertIfNew (l acc : List Leads.CatalogEntry)
    (p : Leads.CatalogEntry) (hp : p ∈ l) (hv : p.value ≠ "") :
    p.value ∈ (l.foldl Leads.insertIfNew acc).map (fun x => x.value) := by
  induction l generalizing acc with
  | nil => cases hp
  | cons q l ih =>
    rw [List.foldl_cons]
    rcases List.mem_cons.mp hp with rfl | hp2
    · by_cases hc : p.value ≠ "" ∧ acc.all (fun r => r.value != p.value)
      · rw [insertIfNew_pos acc p hc]
        apply keys_mono_foldl_insertIfNew
        rw [List.map_append]
        exact List.mem_append_right _ (by simp)
      · rw [insertIfNew_neg acc p hc]
        apply keys_mono_foldl_insertIfNew
        have hnall : ¬(acc.all (fun r => r.value != p.value) = true) :=
          fun hall => hc ⟨hv, hall⟩
        rw [List.all_eq_true] at hnall
        push_neg at hnall
        obtain ⟨r, hr, hne⟩ := hnall
        have hre : r.value = p.value := by
          by_contra hcon
          exact hne (bne_iff_ne.mpr hcon)
        rw [List.mem_map]
        exact ⟨r, hr, hre⟩
    · exact ih (Leads.insertIfNew acc q) hp2

theorem foldl_insertIfNew_id (l acc : List Leads.CatalogEntry)
    (h : (((acc ++ l)).map (fun x => x.value)).Nodup)
    (hv : ∀ e ∈ l, e.value ≠ "") :
    l.foldl Leads.insertIfNew acc = acc ++ l := by
  induction l generalizing acc with
  | nil => simp
  | cons p l ih =>
    rw [List.foldl_cons]
    have hc : p.value ≠ "" ∧ acc.all (fun q => q.value != p.value) := by
      refine ⟨hv p (List.mem_cons_self _ _), ?_⟩
      rw [List.all_eq_true]
      intro q hq
      rw [bne_iff_ne]
      intro heq
      rw [List.map_append, List.nodup_append] at h
      exact h.2.2 (List.mem_map_of_mem _ hq)
        (by rw [heq]; exact List.mem_map_of_mem _ (List.mem_cons_self _ _))
    rw [insertIfNew_pos acc p hc, ih (acc ++ [p])
      (by simpa using h)
      (fun e he => hv e (List.mem_cons_of_mem _ he))]
    simp

theorem mapSet_keys_present (acc : List Leads.CatalogEntry)
    (o : Leads.CatalogEntry) (hc : acc.any (fun q => q.value == o.value) = true) :
    (Leads.mapSet acc o).map (fun x => x.value) =
      acc.map (fun x => x.value) := by
  unfold Leads.mapSet
  rw [if_pos hc, List.map_map]
  apply List.map_congr_left
  intro x _
  by_cases h : x.value = o.value <;> simp [h]

theorem mapSet_keys_absent (acc : List Leads.CatalogEntry)
    (o : Leads.CatalogEntry) (hc : ¬ acc.any (fun q => q.value == o.value) = true) :
    Leads.mapSet acc o = acc ++ [o] := by
  unfold Leads.mapSet
  rw [if_neg hc]

theorem mapSet_mem (acc : List Leads.CatalogEntry) (o e : Leads.CatalogEntry)
    (he : e ∈ Leads.mapSet acc o) : e ∈ acc ∨ e = o := by
  unfold Leads.mapSet at he
  split at he
  · rw [List.mem_map] at he
    obtain ⟨x, hx, rfl⟩ := he
    by_cases h : x.value = o.value
    · simp [h]
    · simp [h]
      exact Or.inl hx
  · rcases List.mem_append.mp he with h | h
    · exact Or.inl h
    · exact Or.inr (List.mem_singleton.mp h)

theorem foldl_mapSet_mem (l acc : List Leads.CatalogEntry) :
    ∀ e ∈ l.foldl Leads.mapSet acc, e ∈ acc ∨ e ∈ l := by
  induction l generalizing acc with
  | nil => exact fun e he => Or.inl he
  | cons o l ih =>
    intro e he
    rw [List.foldl_cons] at he
    rcases ih (Leads.mapSet acc o) e he with h | h
    · rcases mapSet_mem acc o e h with h2 | rfl
      · exact Or.inl h2
      · exact Or.inr (List.mem_cons_self _ _)
    · exact Or.inr (List.mem_cons_of_mem _ h)

theorem keys_mono_mapSet (acc : List Leads.CatalogEntry) (o : Leads.CatalogEntry) :
    ∀ v ∈ acc.map (fun x => x.value),
      v ∈ (Leads.mapSet acc o).map (fun x => x.value) := by
  intro v hv
  by_cases hc : acc.any (fun q => q.value == o.value) = true
  · rw [mapSet_keys_present acc o hc]
    exact hv
  · rw [mapSet_keys_absent acc o hc, List.map_append]
    exact List.mem_append_left _ hv

theorem keys_mono_foldl_mapSet (l acc : List Leads.CatalogEntry) :
    ∀ v ∈ acc.map (fun x => x.value),
      v ∈ (l.foldl Leads.mapSet acc).map (fun x => x.value) := by
  induction l generalizing acc with
  | nil => exact fun v hv => hv
  | cons o l ih =>
    intro v hv
    rw [List.foldl_cons]
    exact ih (Leads.mapSet acc o) v (keys_mono_mapSet acc o v hv)

theorem foldl_mapSet_nodup (l acc : List Leads.CatalogEntry)
    (h : (acc.map (fun x => x.value)).Nodup) :
    ((l.foldl Leads.mapSet acc).map (fun x => x.value)).Nodup := by
  induction l generalizing acc with
  | nil => exact h
  | cons o l ih =>
    rw [List.foldl_cons]
    apply ih
    by_cases hc : acc.any (fun q => q.value == o.value) = true
    · rw [mapSet_keys_present acc o hc]
      exact h
    · rw [mapSet_keys_absent acc o hc, List.map_append]
      refine List.Nodup.append h (List.nodup_singleton _) ?_
      intro a ha hb
      simp only [List.map_cons, List.map_nil, List.mem_singleton] at hb
      subst hb
      rw [List.mem_map] at ha
      obtain ⟨x, hx, hxv⟩ := ha
      rw [List.any_eq_true] at hc
      exact hc ⟨x, hx, by rw [beq_iff_eq]; exact hxv⟩

theorem key_in_foldl_mapSet (l acc : List Leads.CatalogEntry)
    (p : Leads.CatalogEntry) (hp : p ∈ l) :
    p.value ∈ (l.foldl Leads.mapSet acc).map (fun x => x.value) := by
  induction l generalizing acc with
  | nil => cases hp
  | cons q l ih =>
    rw [List.foldl_cons]
    rcases List.mem_cons.mp hp with rfl | hp2
    · apply keys_mono_foldl_mapSet
      by_cases hc : acc.any (fun r => r.value == p.value) = true
      · rw [mapSet_keys_present acc p hc]
        rw [List.any_eq_true] at hc
        obtain ⟨r, hr, hrv⟩ := hc
        rw [beq_iff_eq] at hrv
        rw [List.mem_map]
        exact ⟨r, hr, hrv⟩
      · rw [mapSet_keys_absent acc p hc, List.map_append]
        exact List.mem_append_right _ (by simp)
    · exact ih (Leads.mapSet acc q) hp2

theorem insertIfAbsent_cases (acc : List Leads.CatalogEntry)
    (o : Leads.CatalogEntry) :
    Leads.insertIfAbsent acc o = acc ∨
    (Leads.insertIfAbsent acc o = acc ++ [o] ∧
      o.value ∉ acc.map (fun x => x.value)) := by
  unfold Leads.insertIfAbsent
  by_cases hc : acc.any (fun q => q.value == o.value) = true
  · rw [if_pos hc]
    exact Or.inl rfl
  · rw [if_neg hc]
    refine Or.inr ⟨rfl, fun hmem => ?_⟩
    rw [List.mem_map] at hmem
    obtain ⟨x, hx, hxv⟩ := hmem
    rw [List.any_eq_true] at hc
    exact hc ⟨x, hx, by rw [beq_iff_eq]; exact hxv⟩

theorem foldl_insertIfAbsent_exists (l acc : List Leads.CatalogEntry) :
    ∃ t, l.foldl Leads.insertIfAbsent acc = acc ++ t ∧
      ∀ e ∈ t, e ∈ l ∧ e.value ∉ acc.map (fun x => x.value) := by
  induction l generalizing acc with
  | nil => exact ⟨[], by simp, by simp⟩
  | cons p l ih =>
    rw [List.foldl_cons]
    rcases insertIfAbsent_cases acc p with hins | ⟨hins, hnotin⟩
    · obtain ⟨t, ht, hprop⟩ := ih acc
      refine ⟨t, ?_, fun e he => ?_⟩
      · rw [hins]
        exact ht
      · obtain ⟨h1, h2⟩ := hprop e he
        exact ⟨List.mem_cons_of_mem _ h1, h2⟩
    · obtain ⟨t, ht, hprop⟩ := ih (acc ++ [p])
      refine ⟨p :: t, ?_, ?_⟩
      · rw [hins, ht]
        simp
      · intro e he
        rcases List.mem_cons.mp he with rfl | he2
        · exact ⟨List.mem_cons_self _ _, hnotin⟩
        · obtain ⟨h1, h2⟩ := hprop e he2
          refine ⟨List.mem_cons_of_mem _ h1, fun hmem => h2 ?_⟩
          rw [List.map_append]
          exact List.mem_append_left _ hmem

theorem foldl_insertIfAbsent_nodup (l acc : List Leads.CatalogEntry)
    (h : (acc.map (fun x => x.value)).Nodup) :
    ((l.foldl Leads.insertIfAbsent acc).map (fun x => x.value)).Nodup := by
  induction l generalizing acc with
  | nil => exact h
  | cons p l ih =>
    rw [List.foldl_cons]
    rcases insertIfAbsent_cases acc p with hins | ⟨hins, hnotin⟩
    · rw [hins]
      exact ih acc h
    · rw [hins]
      apply ih
      rw [List.map_append]
      refine List.Nodup.append h (List.nodup_singleton _) ?_
      intro a ha hb
      simp only [List.map_cons, List.map_nil, List.mem_singleton] at hb
      subst hb
      exact hnotin ha

theorem projectListMerge_values_ne (full seen : List Leads.CatalogEntry) :
    ∀ e ∈ Leads.projectListMerge full seen, e.value ≠ "" := by
  obtain ⟨t1, ht1, hp1⟩ := foldl_insertIfNew_exists full []
  obtain ⟨t2, ht2, hp2⟩ :=
    foldl_insertIfNew_exists seen (full.foldl Leads.insertIfNew [])
  intro e he
  unfold Leads.projectListMerge at he
  rw [ht2] at he
  rcases List.mem_append.mp he with h | h
  · rw [ht1, List.nil_append] at h
    exact (hp1 e h).2.1
  · exact (hp2 e h).2.1

/-- C7: catalog merging is first-writer-wins in priority order — the merged
list (`projectList`, and `loadSimpleCatalog`'s output) contains each value
key at most once; an entry always belongs to the highest-priority source
that supplies its key (the authoritative catalog before observed values);
every non-empty source key survives into the merge; and re-merging the
merged list yields it unchanged (idempotence), which together with the
merge being a pure function gives the claim's "identical inputs, identical
ordered result". -/
theorem C7_catalog_merge (full seen meta rows : List Leads.CatalogEntry) :
    ((Leads.projectListMerge full seen).map (fun e => e.value)).Nodup ∧
    (∀ e ∈ Leads.projectListMerge full seen,
      (e ∈ full ∨ e ∈ seen) ∧
      ((∃ p ∈ full, p.value = e.value ∧ p.value ≠ "") → e ∈ full)) ∧
    (∀ p : Leads.CatalogEntry, (p ∈ full ∨ p ∈ seen) → p.value ≠ "" →
      ∃ e ∈ Leads.projectListMerge full seen, e.value = p.value) ∧
    Leads.projectListMerge (Leads.projectListMerge full seen) [] =
      Leads.projectListMerge full seen ∧
    ((Leads.loadSimpleCatalog meta rows).map (fun e => e.value)).Nodup ∧
    (∀ e ∈ Leads.loadSimpleCatalog meta rows,
      (e ∈ meta ∨ e ∈ rows) ∧
      ((∃ p ∈ meta, p.value = e.value) → e ∈ meta)) := by
  obtain ⟨t1, ht1, hp1⟩ := foldl_insertIfNew_exists full []
  obtain ⟨t2, ht2, hp2⟩ :=
    foldl_insertIfNew_exists seen (full.foldl Leads.insertIfNew [])
  refine ⟨?_, ?_, ?_, ?_, ?_, ?_⟩
  · exact foldl_insertIfNew_nodup seen _ (foldl_insertIfNew_nodup full [] (by simp))
  · intro e he
    unfold Leads.projectListMerge at he
    rw [ht2] at he
    constructor
    · rcases List.mem_append.mp he with h | h
      · rw [ht1, List.nil_append] at h
        exact Or.inl (hp1 e h).1
      · exact Or.inr (hp2 e h).1
    · rintro ⟨p, hpfull, hpv, hpne⟩
      rcases List.mem_append.mp he with h | h
      · rw [ht1, List.nil_append] at h
        exact (hp1 e h).1
      · exfalso
        have hkey : p.value ∈ (full.foldl Leads.insertIfNew []).map
            (fun x => x.value) := key_in_foldl_insertIfNew full [] p hpfull hpne
        rw [hpv] at hkey
        exact (hp2 e h).2.2 hkey
  · intro p hp hpv
    have hkey : p.value ∈ (Leads.projectListMerge full seen).map
        (fun x => x.value) := by
      unfold Leads.projectListMerge
      rcases hp with h | h
      · exact keys_mono_foldl_insertIfNew seen _ _
          (key_in_foldl_insertIfNew full [] p h hpv)
      · exact key_in_foldl_insertIfNew seen _ p h hpv
    rw [List.mem_map] at hkey
    obtain ⟨e, he, hev⟩ := hkey
    exact ⟨e, he, hev⟩
  · show [].foldl Leads.insertIfNew
        ((Leads.projectListMerge full seen).foldl Leads.insertIfNew []) =
      Leads.projectListMerge full seen
    rw [List.foldl_nil]
    rw [foldl_insertIfNew_id _ []
      (by
        rw [List.nil_append]
        exact foldl_insertIfNew_nodup seen _
          (foldl_insertIfNew_nodup full [] (by simp)))
      (projectListMerge_values_ne full seen)]
    rw [List.nil_append]
  · exact foldl_insertIfAbsent_nodup rows _ (foldl_mapSet_nodup meta [] (by simp))
  · obtain ⟨t3, ht3, hp3⟩ :=
      foldl_insertIfAbsent_exists rows (meta.foldl Leads.mapSet [])
    intro e he
    unfold Leads.loadSimpleCatalog at he
    rw [ht3] at he
    constructor
    · rcases List.mem_append.mp he with h | h
      · rcases foldl_mapSet_mem meta [] e h with h2 | h2
        · cases h2
        · exact Or.inl h2
      · exact Or.inr (hp3 e h).1
    · rintro ⟨p, hpmeta, hpv⟩
      rcases List.mem_append.mp he with h | h
      · rcases foldl_mapSet_mem meta [] e h with h2 | h2
        · cases h2
        · exact h2
      · exfalso
        have hkey : p.value ∈ (meta.foldl Leads.mapSet []).map
            (fun x => x.value) := key_in_foldl_mapSet meta [] p hpmeta
        rw [hpv] at hkey
        exact (hp3 e h).2 hkey

/-- C7 witness: `C7_catalog_merge` discharged on a concrete catalog where a
seen value collides with an authoritative entry: the merged keys are
distinct, the fresh seen key survives, and the colliding seen entry (whose
label differs) is not the authoritative one. -/
theorem C7_catalog_merge_witness :
    ((Leads.projectListMerge
        [⟨"Palm Hills", "p1", none⟩]
        [⟨"seen label", "p1", none⟩, ⟨"p2", "p2", none⟩]).map
      (fun e => e.value)).Nodup ∧
    (∃ e ∈ Leads.projectListMerge
        [⟨"Palm Hills", "p1", none⟩]
        [⟨"seen label", "p1", none⟩, ⟨"p2", "p2", none⟩], e.value = "p2") ∧
    (⟨"seen label", "p1", none⟩ : Leads.CatalogEntry) ∉
      ([⟨"Palm Hills", "p1", none⟩] : List Leads.CatalogEntry) := by
  have h := C7_catalog_merge [⟨"Palm Hills", "p1", none⟩]
    [⟨"seen label", "p1", none⟩, ⟨"p2", "p2", none⟩] [] []
  refine ⟨h.1, ?_, by decide⟩
  exact h.2.2.1 ⟨"p2", "p2", none⟩ (Or.inr (by decide)) (by decide)
